import Mathlib

/-!
# oFono hands-free atom (`src/handsfree.c`)

A shallow embedding of the driver registry, the atom life cycle and the
cached-property interface of `src/handsfree.c`, followed by theorems about it.

C pointers are addresses (`Nat`); a nullable pointer is an `Option`.  The
process state the file reads and writes is one record, `World`; every C
function becomes a function from `World` to its return value and the next
`World`.  A result of `none` at the outermost `Option` means that the C call
dereferences an address that holds no object (or calls through a NULL
function pointer).
-/

set_option autoImplicit false

namespace OFono

/-! ## Data model -/

/-- Address of a `struct ofono_handsfree_driver`. -/
abbrev DrvPtr := Nat

/-- Address of a `struct ofono_handsfree`. -/
abbrev HfPtr := Nat

/-- Address of a `struct ofono_atom`. -/
abbrev AtomPtr := Nat

/-- Address of a `struct ofono_modem`. -/
abbrev ModemPtr := Nat

/-- An untyped `void *` that this file only stores and hands back; `0` is NULL. -/
abbrev VoidPtr := Nat

/-- A call a probe makes, while it runs, on the object it is given, through
the functions `handsfree.c` exports to drivers. -/
inductive ProbeAction where
  | set_data (data : VoidPtr)
  | set_inband_ringing (enabled : Int)
  | register
deriving DecidableEq, Repr

/-- The `probe` member of a driver: `int (*probe)(hf, vendor, data)`, code that
lives in the driver.  `struct ofono_handsfree` is private to `handsfree.c`, so
the probe reaches the object it is given through the exported functions only:
for the given vendor and init data it returns a C `int` and makes a sequence of
calls of `ofono_handsfree_set_data`, `ofono_handsfree_set_inband_ringing` and
`ofono_handsfree_register` on the object. -/
abbrev ProbeFn := Nat → VoidPtr → Int × List ProbeAction

/-- The `remove` member of a driver: `void (*remove)(hf)`.  The hook releases
the private state; the result is what it leaves in the `driver_data` slot. -/
abbrev RemoveFn := VoidPtr → VoidPtr

/-- The members of `struct ofono_handsfree_driver` that `handsfree.c` reads. -/
structure ofono_handsfree_driver where
  name : Option String
  probe : Option ProbeFn
  remove : Option RemoveFn

/-- The private `struct ofono_handsfree` of `handsfree.c`.  `ofono_bool_t` is
a C `int`: the cache holds whatever number was stored. -/
structure ofono_handsfree where
  inband_ringing : Int
  driver : Option DrvPtr
  driver_data : VoidPtr
  atom : Option AtomPtr
deriving DecidableEq, Repr

/-- The functions of `handsfree.c` that are handed to the atom tree as callbacks. -/
inductive Callback where
  | handsfree_remove
  | handsfree_unregister
deriving DecidableEq, Repr

/-- The atom kinds; only `OFONO_ATOM_TYPE_HANDSFREE` is used here. -/
inductive ofono_atom_type where
  | OFONO_ATOM_TYPE_HANDSFREE
  | OFONO_ATOM_TYPE_OTHER (n : Nat)
deriving DecidableEq, Repr

/-- Modelled from the spec: `struct ofono_atom` of the atom-tree manager
(`src/modem.c`), which "creates/destroys atoms, assigns each a stable path, and
invokes a registered teardown callback when an atom is destroyed". -/
structure ofono_atom where
  type : ofono_atom_type
  modem : ModemPtr
  destruct : Option Callback
  unregister : Option Callback
  data : Option HfPtr
deriving DecidableEq, Repr

/-- A D-Bus value, as far as this file builds or inspects one.  A `bool` holds a
`dbus_bool_t`, which is a 32-bit unsigned number. -/
inductive DBusValue where
  | bool (v : Nat)
  | string (s : String)
  | uint32 (n : Nat)
  | variant (v : DBusValue)
deriving DecidableEq, Repr

/-- An incoming method call: its argument list. -/
structure DBusMessage where
  args : List DBusValue
deriving DecidableEq, Repr

/-- What a method handler returns. -/
inductive DBusReply where
  | method_return (dict : List (String × DBusValue))
  | error (name : String)
deriving DecidableEq, Repr

/-- A signal put on the bus. -/
structure Signal where
  path : String
  interface : String
  member : String
  args : List DBusValue
deriving DecidableEq, Repr

/-- A call made through a function pointer of a driver descriptor. -/
inductive DriverCall where
  | probe (drv : DrvPtr) (hf : HfPtr) (vendor : Nat) (data : VoidPtr)
  | remove (drv : DrvPtr) (hf : HfPtr)
deriving DecidableEq, Repr

/-- The process state.  `g_drivers` is the `static GSList *g_drivers`;
`drivers` is the memory holding the (constant) driver descriptors; `hfs` and
`atoms` are the heap; `brk` is the next address the allocator hands out;
`modem_path`, `modem_atoms` and `interfaces` belong to the modems; `bus` lists
the registered (path, interface, user data) triples; `signals` and `calls` log
the signals emitted and the driver hooks invoked, oldest first. -/
@[ext]
structure World where
  g_drivers : List DrvPtr
  drivers : DrvPtr → ofono_handsfree_driver
  hfs : HfPtr → Option ofono_handsfree
  atoms : AtomPtr → Option ofono_atom
  brk : Nat
  modem_path : ModemPtr → String
  modem_atoms : ModemPtr → List AtomPtr
  interfaces : List (ModemPtr × String)
  bus : List (String × String × HfPtr)
  signals : List Signal
  calls : List DriverCall

/-- Store `h` at address `p` of the hands-free heap. -/
def World.store_hf (w : World) (p : HfPtr) (h : Option ofono_handsfree) : World :=
  { w with hfs := fun q => if q = p then h else w.hfs q }

/-- Store `a` at address `p` of the atom heap. -/
def World.store_atom (w : World) (p : AtomPtr) (a : Option ofono_atom) : World :=
  { w with atoms := fun q => if q = p then a else w.atoms q }

/-! ## Constants -/

/-- `EINVAL` of `<errno.h>`. -/
def EINVAL : Int := 22

/-- `OFONO_HANDSFREE_INTERFACE` of `include/dbus.h`. -/
def OFONO_HANDSFREE_INTERFACE : String := "org.ofono.Handsfree"

/-- The C conversion of an `ofono_bool_t` (an `int`) to a `dbus_bool_t` (32 bits
unsigned), as in `dbus_bool_t dbus_enabled = enabled`. -/
def to_dbus_bool (v : Int) : Nat :=
  (v % 4294967296).toNat

/-- `DBUS_TYPE_INVALID`. -/
def DBUS_TYPE_INVALID : Nat := 0

/-- `DBUS_TYPE_BOOLEAN`, the character `b`. -/
def DBUS_TYPE_BOOLEAN : Nat := 98

/-- `DBUS_TYPE_STRING`, the character `s`. -/
def DBUS_TYPE_STRING : Nat := 115

/-- `DBUS_TYPE_UINT32`, the character `u`. -/
def DBUS_TYPE_UINT32 : Nat := 117

/-- `DBUS_TYPE_VARIANT`, the character `v`. -/
def DBUS_TYPE_VARIANT : Nat := 118

/-! ## GLib lists -/

/-- GLib `g_slist_prepend`: the new element becomes the head. -/
def g_slist_prepend (list : List DrvPtr) (data : DrvPtr) : List DrvPtr :=
  data :: list

/-- GLib `g_slist_remove`: unlinks the first node whose data pointer equals
`data`; "if two elements contain the same data, only the first is removed";
the list is unchanged when no node matches. -/
def g_slist_remove : List DrvPtr → DrvPtr → List DrvPtr
  | [], _ => []
  | x :: l, data => if x = data then l else x :: g_slist_remove l data

/-- `strcmp` of `<string.h>` on the characters of two strings: zero when they
are equal, otherwise the sign of the first difference. -/
def strcmp : List Char → List Char → Int
  | [], [] => 0
  | [], _ :: _ => -1
  | _ :: _, [] => 1
  | a :: s1, b :: s2 =>
    if a.toNat < b.toNat then -1 else if b.toNat < a.toNat then 1 else strcmp s1 s2

/-- GLib `g_strcmp0`: `strcmp` that accepts NULL, NULL sorting before any string. -/
def g_strcmp0 (str1 str2 : Option String) : Int :=
  match str1, str2 with
  | none, none => 0
  | none, some _ => -1
  | some _, none => 1
  | some a, some b => strcmp a.data b.data

/-! ## Driver registry -/

/-- `ofono_handsfree_driver_register` (lines 217-227). -/
def ofono_handsfree_driver_register (w : World) (d : DrvPtr) : Int × World :=
  match (w.drivers d).probe with
  | none => (-EINVAL, w)
  | some _ => (0, { w with g_drivers := g_slist_prepend w.g_drivers d })

/-- `ofono_handsfree_driver_unregister` (lines 229-235). -/
def ofono_handsfree_driver_unregister (w : World) (d : DrvPtr) : World :=
  { w with g_drivers := g_slist_remove w.g_drivers d }

/-! ## External collaborators: allocator, atom tree, bus -/

/-- The object `g_try_new0` returns: every member zero. -/
def hf_zero : ofono_handsfree :=
  { inband_ringing := 0, driver := none, driver_data := 0, atom := none }

/-- GLib `g_try_new0(struct ofono_handsfree, 1)`: a zero-filled object at a new
address, or NULL when memory is exhausted (`ok = false`). -/
def g_try_new0 (w : World) (ok : Bool) : Option HfPtr × World :=
  if ok then
    (some w.brk, { w.store_hf w.brk (some hf_zero) with brk := w.brk + 1 })
  else
    (none, w)

/-- Modelled from the spec: `__ofono_modem_add_atom` of the atom-tree manager
(`src/modem.c`), which "allocates an Atom, links it into the atom tree under
`modemRef`" and keeps the teardown callback and the data pointer it is given. -/
def __ofono_modem_add_atom (w : World) (modem : ModemPtr) (type : ofono_atom_type)
    (destruct : Callback) (data : HfPtr) : AtomPtr × World :=
  let atom : ofono_atom :=
    { type := type, modem := modem, destruct := some destruct, unregister := none,
      data := some data }
  (w.brk,
    { w.store_atom w.brk (some atom) with
      brk := w.brk + 1
      modem_atoms := fun m => if m = modem then w.brk :: w.modem_atoms m else w.modem_atoms m })

/-- Modelled from the spec: `__ofono_atom_get_data` (`src/modem.c`), the data
pointer the atom was created with. -/
def __ofono_atom_get_data (w : World) (atom : AtomPtr) : Option (Option HfPtr) :=
  (w.atoms atom).map fun a => a.data

/-- Modelled from the spec: `__ofono_atom_get_modem` (`src/modem.c`), "used to
resolve the modem it belongs to". -/
def __ofono_atom_get_modem (w : World) (atom : Option AtomPtr) : Option ModemPtr :=
  match atom with
  | none => none
  | some a => (w.atoms a).map fun x => x.modem

/-- Modelled from the spec: `__ofono_atom_get_path` (`src/modem.c`), the
"stable path" of the modem the atom belongs to. -/
def __ofono_atom_get_path (w : World) (atom : Option AtomPtr) : Option String :=
  match atom with
  | none => none
  | some a => (w.atoms a).map fun x => w.modem_path x.modem

/-- Modelled from the spec: `__ofono_atom_register` (`src/modem.c`), which
"records a teardown hook with the atom tree". -/
def __ofono_atom_register (w : World) (atom : AtomPtr) (unregister : Callback) :
    Option World :=
  match w.atoms atom with
  | none => none
  | some a => some (w.store_atom atom (some { a with unregister := some unregister }))

/-- Modelled from the spec: `ofono_modem_add_interface` (`src/modem.c`). -/
def ofono_modem_add_interface (w : World) (modem : ModemPtr) (interface : String) : World :=
  { w with interfaces := (modem, interface) :: w.interfaces }

/-- Modelled from the spec: `ofono_modem_remove_interface` (`src/modem.c`). -/
def ofono_modem_remove_interface (w : World) (modem : ModemPtr) (interface : String) : World :=
  { w with interfaces := w.interfaces.filter fun e => e ≠ (modem, interface) }

/-- Modelled from the spec: `g_dbus_register_interface` (`gdbus/object.c`);
registration "fails if bus registration fails (name/path collision)". -/
def g_dbus_register_interface (w : World) (path interface : String) (user_data : HfPtr) :
    Bool × World :=
  if w.bus.any (fun e => e.1 = path ∧ e.2.1 = interface) then
    (false, w)
  else
    (true, { w with bus := (path, interface, user_data) :: w.bus })

/-- Modelled from the spec: `g_dbus_unregister_interface` (`gdbus/object.c`). -/
def g_dbus_unregister_interface (w : World) (path interface : String) : World :=
  { w with bus := w.bus.filter fun e => ¬ (e.1 = path ∧ e.2.1 = interface) }

/-- Modelled from the spec: `ofono_dbus_signal_property_changed` (`src/dbus.c`),
which "emits a property-changed signal carrying the property name and new value
to all bus subscribers for that object path/interface". -/
def ofono_dbus_signal_property_changed (w : World) (path interface name : String)
    (_type : Nat) (value : DBusValue) : World :=
  { w with
    signals := w.signals ++
      [{ path := path, interface := interface, member := "PropertyChanged",
         args := [DBusValue.string name, DBusValue.variant value] }] }

/-- Modelled from the spec: `ofono_dbus_dict_append` (`src/dbus.c`), one more
`{string: variant}` entry at the end of the open dictionary. -/
def ofono_dbus_dict_append (dict : List (String × DBusValue)) (key : String) (_type : Nat)
    (value : DBusValue) : List (String × DBusValue) :=
  dict ++ [(key, DBusValue.variant value)]

/-- Modelled from the spec: `__ofono_error_invalid_args` (`src/dbus.c`), "the
standard invalid arguments bus error reply". -/
def __ofono_error_invalid_args (_msg : DBusMessage) : DBusReply :=
  DBusReply.error "org.ofono.Error.InvalidArguments"

/-- The libdbus type code of a value. -/
def DBusValue.type_code : DBusValue → Nat
  | .bool _ => DBUS_TYPE_BOOLEAN
  | .string _ => DBUS_TYPE_STRING
  | .uint32 _ => DBUS_TYPE_UINT32
  | .variant _ => DBUS_TYPE_VARIANT

/-- libdbus `dbus_message_iter_init`: an iterator on the first argument, and
`FALSE` when the message has no arguments. -/
def dbus_message_iter_init (msg : DBusMessage) : Bool × List DBusValue :=
  (!msg.args.isEmpty, msg.args)

/-- libdbus `dbus_message_iter_get_arg_type`: the type code of the argument the
iterator stands on, `DBUS_TYPE_INVALID` past the end. -/
def dbus_message_iter_get_arg_type : List DBusValue → Nat
  | [] => DBUS_TYPE_INVALID
  | a :: _ => a.type_code

/-- libdbus `dbus_message_iter_next`. -/
def dbus_message_iter_next (iter : List DBusValue) : List DBusValue :=
  iter.tail

/-! ## The functions of `handsfree.c` -/

/-- `ofono_handsfree_set_data` (lines 242-245). -/
def ofono_handsfree_set_data (w : World) (hf : HfPtr) (data : VoidPtr) : Option World :=
  match w.hfs hf with
  | none => none
  | some h => some (w.store_hf hf (some { h with driver_data := data }))

/-- `ofono_handsfree_get_data` (lines 247-250). -/
def ofono_handsfree_get_data (w : World) (hf : HfPtr) : Option VoidPtr :=
  match w.hfs hf with
  | none => none
  | some h => some h.driver_data

/-- `ofono_handsfree_set_inband_ringing` (lines 53-69). -/
def ofono_handsfree_set_inband_ringing (w : World) (hf : HfPtr) (enabled : Int) :
    Option World :=
  match w.hfs hf with
  | none => none
  | some h =>
    match __ofono_atom_get_path w h.atom with
    | none => none
    | some path =>
      let dbus_enabled : Nat := to_dbus_bool enabled
      if h.inband_ringing = enabled then
        some w
      else
        some (ofono_dbus_signal_property_changed
          (w.store_hf hf (some { h with inband_ringing := enabled }))
          path OFONO_HANDSFREE_INTERFACE "InbandRinging" DBUS_TYPE_BOOLEAN
          (DBusValue.bool dbus_enabled))

/-- `handsfree_get_properties` (lines 71-97).  `reply_ok` says whether
`dbus_message_new_method_return` could allocate the reply. -/
def handsfree_get_properties (w : World) (reply_ok : Bool) (_msg : DBusMessage)
    (data : HfPtr) : Option (Option DBusReply × World) :=
  if reply_ok = false then
    some (none, w)
  else
    match w.hfs data with
    | none => none
    | some hf =>
      let inband_ringing : Nat := to_dbus_bool hf.inband_ringing
      let dict := ofono_dbus_dict_append [] "InbandRinging" DBUS_TYPE_BOOLEAN
        (DBusValue.bool inband_ringing)
      some (some (DBusReply.method_return dict), w)

/-- `handsfree_set_property` (lines 99-120).  The name read with
`dbus_message_iter_get_basic` and the iterator opened with
`dbus_message_iter_recurse` are not used by the code that follows them. -/
def handsfree_set_property (w : World) (msg : DBusMessage) (_data : HfPtr) :
    DBusReply × World :=
  if (dbus_message_iter_init msg).1 = false then
    (__ofono_error_invalid_args msg, w)
  else
    let iter := (dbus_message_iter_init msg).2
    if dbus_message_iter_get_arg_type iter ≠ DBUS_TYPE_STRING then
      (__ofono_error_invalid_args msg, w)
    else
      let iter := dbus_message_iter_next iter
      if dbus_message_iter_get_arg_type iter ≠ DBUS_TYPE_VARIANT then
        (__ofono_error_invalid_args msg, w)
      else
        (__ofono_error_invalid_args msg, w)

/-- The call `hf->driver->remove(hf)`: the hook is logged and what it leaves in
the private-state slot is stored. -/
def call_remove (w : World) (drv : DrvPtr) (remove : RemoveFn) (hf : HfPtr)
    (h : ofono_handsfree) : World :=
  { w.store_hf hf (some { h with driver_data := remove h.driver_data }) with
    calls := w.calls ++ [DriverCall.remove drv hf] }

/-- `handsfree_remove` (lines 135-148). -/
def handsfree_remove (w : World) (atom : AtomPtr) : Option World :=
  match __ofono_atom_get_data w atom with
  | none => none
  | some none => some w
  | some (some hf) =>
    match w.hfs hf with
    | none => none
    | some h =>
      let w1 :=
        match h.driver with
        | none => w
        | some drv =>
          match (w.drivers drv).remove with
          | none => w
          | some remove => call_remove w drv remove hf h
      some (w1.store_hf hf none)

/-- `handsfree_unregister` (lines 185-194). -/
def handsfree_unregister (w : World) (atom : AtomPtr) : Option World :=
  match __ofono_atom_get_modem w (some atom), __ofono_atom_get_path w (some atom) with
  | some modem, some path =>
    some (g_dbus_unregister_interface
      (ofono_modem_remove_interface w modem OFONO_HANDSFREE_INTERFACE)
      path OFONO_HANDSFREE_INTERFACE)
  | _, _ => none

/-- `ofono_handsfree_register` (lines 196-215). -/
def ofono_handsfree_register (w : World) (hf : HfPtr) : Option World :=
  match w.hfs hf with
  | none => none
  | some h =>
    match __ofono_atom_get_modem w h.atom, __ofono_atom_get_path w h.atom, h.atom with
    | some modem, some path, some atom =>
      match g_dbus_register_interface w path OFONO_HANDSFREE_INTERFACE hf with
      | (false, w1) => some w1
      | (true, w1) =>
        __ofono_atom_register (ofono_modem_add_interface w1 modem OFONO_HANDSFREE_INTERFACE)
          atom Callback.handsfree_unregister
    | _, _, _ => none

/-- One call a probe makes on the object it was given. -/
def probe_action (w : World) (hf : HfPtr) : ProbeAction → Option World
  | .set_data data => ofono_handsfree_set_data w hf data
  | .set_inband_ringing enabled => ofono_handsfree_set_inband_ringing w hf enabled
  | .register => ofono_handsfree_register w hf

/-- The calls a probe makes on the object it was given, in order. -/
def probe_actions (w : World) (hf : HfPtr) : List ProbeAction → Option World
  | [] => some w
  | a :: l =>
    match probe_action w hf a with
    | none => none
    | some w1 => probe_actions w1 hf l

/-- The call `drv->probe(hf, vendor, data)`: the hook is logged, the calls it
makes on `hf` are run, and its return value is handed back. -/
def call_probe (w : World) (drv : DrvPtr) (probe : ProbeFn) (hf : HfPtr) (vendor : Nat)
    (data : VoidPtr) : Option (Int × World) :=
  let w1 : World := { w with calls := w.calls ++ [DriverCall.probe drv hf vendor data] }
  match probe_actions w1 hf (probe vendor data).2 with
  | none => none
  | some w2 => some ((probe vendor data).1, w2)

/-- The `for` loop of `ofono_handsfree_create` (lines 169-180), from list node
`l` on. -/
def create_loop (w : World) (hf : HfPtr) (vendor : Nat) (driver : String) (data : VoidPtr) :
    List DrvPtr → Option World
  | [] => some w
  | drv :: l =>
    if g_strcmp0 (w.drivers drv).name (some driver) ≠ 0 then
      create_loop w hf vendor driver data l
    else
      match (w.drivers drv).probe with
      | none => none
      | some probe =>
        match call_probe w drv probe hf vendor data with
        | none => none
        | some (ret, w1) =>
          if ret < 0 then
            create_loop w1 hf vendor driver data l
          else
            match w1.hfs hf with
            | none => none
            | some h => some (w1.store_hf hf (some { h with driver := some drv }))

/-- `ofono_handsfree_create` (lines 150-183).  `alloc_ok` says whether
`g_try_new0` finds memory. -/
def ofono_handsfree_create (w : World) (alloc_ok : Bool) (modem : ModemPtr) (vendor : Nat)
    (driver : Option String) (data : VoidPtr) : Option (Option HfPtr × World) :=
  match driver with
  | none => some (none, w)
  | some name =>
    match g_try_new0 w alloc_ok with
    | (none, w1) => some (none, w1)
    | (some hf, w1) =>
      match __ofono_modem_add_atom w1 modem ofono_atom_type.OFONO_ATOM_TYPE_HANDSFREE
          Callback.handsfree_remove hf with
      | (atom, w2) =>
        match w2.hfs hf with
        | none => none
        | some h =>
          let w3 := w2.store_hf hf (some { h with atom := some atom })
          match create_loop w3 hf vendor name data w3.g_drivers with
          | none => none
          | some w4 => some (some hf, w4)

/-! ## Registration order, as the specification words it -/

/-- A call on the driver registry. -/
inductive RegCall where
  | register (d : DrvPtr)
  | unregister (d : DrvPtr)
deriving DecidableEq, Repr

/-- One registry call, through the functions of `handsfree.c`. -/
def reg_step (w : World) : RegCall → World
  | .register d => (ofono_handsfree_driver_register w d).2
  | .unregister d => ofono_handsfree_driver_unregister w d

/-- A sequence of registry calls, first call first. -/
def reg_run (w : World) (calls : List RegCall) : World :=
  calls.foldl reg_step w

/-- The registrations still in force after a sequence of registry calls on an
empty registry, oldest first: an accepted `register d` adds `d` at the end, an
`unregister d` withdraws the latest registration of `d` that is still in force. -/
def registration_log (drivers : DrvPtr → ofono_handsfree_driver) :
    List RegCall → List DrvPtr → List DrvPtr
  | [], log => log
  | .register d :: calls, log =>
    registration_log drivers calls (if (drivers d).probe.isSome then log ++ [d] else log)
  | .unregister d :: calls, log =>
    registration_log drivers calls (log.reverse.erase d).reverse

/-- Whether the name of descriptor `d` is the requested driver name. -/
def name_matches (drivers : DrvPtr → ofono_handsfree_driver) (driver : String)
    (d : DrvPtr) : Bool :=
  decide ((drivers d).name = some driver)

/-- Whether `d`'s probe succeeds (returns a value `>= 0`) for this vendor and
init data. -/
def probe_succeeds (drivers : DrvPtr → ofono_handsfree_driver) (vendor : Nat)
    (data : VoidPtr) (d : DrvPtr) : Bool :=
  match (drivers d).probe with
  | none => false
  | some p => decide (0 ≤ (p vendor data).1)

/-- The candidates that get tried when they are tried in order until one
succeeds: the list up to and including the first success. -/
def tried (ok : DrvPtr → Bool) : List DrvPtr → List DrvPtr
  | [] => []
  | d :: l => if ok d then [d] else d :: tried ok l

/-- The specification's `select(vendorId, initData)`: "iterates candidates ...;
for each, invokes probe with vendorId and initData; returns the first descriptor
whose probe succeeds ...; returns no match if exhausted". -/
def spec_select (drivers : DrvPtr → ofono_handsfree_driver) (vendor : Nat) (data : VoidPtr)
    (candidates : List DrvPtr) : Option DrvPtr :=
  candidates.find? (probe_succeeds drivers vendor data)

/-- The calls `d`'s probe makes on the object for this vendor and init data. -/
def probe_script (drivers : DrvPtr → ofono_handsfree_driver) (vendor : Nat) (data : VoidPtr)
    (d : DrvPtr) : List ProbeAction :=
  match (drivers d).probe with
  | none => []
  | some p => (p vendor data).2

/-- The private-state slot after one call of a probe. -/
def slot_step (slot : VoidPtr) : ProbeAction → VoidPtr
  | .set_data data => data
  | .set_inband_ringing _ => slot
  | .register => slot

/-- The cached `inband_ringing` after one call of a probe. -/
def cache_step (cache : Int) : ProbeAction → Int
  | .set_data _ => cache
  | .set_inband_ringing enabled => enabled
  | .register => cache

/-- Whether a call of a probe is a call of `ofono_handsfree_set_inband_ringing`. -/
def is_ringing_call : ProbeAction → Bool
  | .set_data _ => false
  | .set_inband_ringing _ => true
  | .register => false

/-- The private-state slot after the probe of `d` has run on it. -/
def slot_after (drivers : DrvPtr → ofono_handsfree_driver) (vendor : Nat) (data : VoidPtr)
    (slot : VoidPtr) (d : DrvPtr) : VoidPtr :=
  (probe_script drivers vendor data d).foldl slot_step slot

/-- The cached `inband_ringing` after the probe of `d` has run on the object. -/
def cache_after (drivers : DrvPtr → ofono_handsfree_driver) (vendor : Nat) (data : VoidPtr)
    (cache : Int) (d : DrvPtr) : Int :=
  (probe_script drivers vendor data d).foldl cache_step cache

/-- No probe of a descriptor of `l` with the requested name calls
`ofono_handsfree_set_inband_ringing`. -/
def quiet_probes (drivers : DrvPtr → ofono_handsfree_driver) (vendor : Nat) (name : String)
    (data : VoidPtr) (l : List DrvPtr) : Prop :=
  ∀ d ∈ l, name_matches drivers name d = true →
    (probe_script drivers vendor data d).all (fun a => !is_ringing_call a) = true

/-- The hands-free object after the loop of `ofono_handsfree_create` has run
over the list `l`, written with the specification's notions: the driver bound
is the first name-matching candidate whose probe succeeds, the private-state
slot and the cached value have gone through the probes tried. -/
def hf_after_loop (drivers : DrvPtr → ofono_handsfree_driver) (vendor : Nat) (name : String)
    (data : VoidPtr) (l : List DrvPtr) (h : ofono_handsfree) : ofono_handsfree :=
  { h with
    inband_ringing :=
      (tried (probe_succeeds drivers vendor data)
        (l.filter (name_matches drivers name))).foldl
        (cache_after drivers vendor data) h.inband_ringing
    driver :=
      match spec_select drivers vendor data (l.filter (name_matches drivers name)) with
      | some d => some d
      | none => h.driver
    driver_data :=
      (tried (probe_succeeds drivers vendor data)
        (l.filter (name_matches drivers name))).foldl
        (slot_after drivers vendor data) h.driver_data }

/-- The probe calls the loop of `ofono_handsfree_create` makes over the list `l`. -/
def probes_of_loop (drivers : DrvPtr → ofono_handsfree_driver) (hf : HfPtr) (vendor : Nat)
    (name : String) (data : VoidPtr) (l : List DrvPtr) : List DriverCall :=
  (tried (probe_succeeds drivers vendor data) (l.filter (name_matches drivers name))).map
    fun d => DriverCall.probe d hf vendor data

/-- The members of an atom that are set when it is created. -/
def atom_core (a : ofono_atom) :
    ofono_atom_type × ModemPtr × Option Callback × Option HfPtr :=
  (a.type, a.modem, a.destruct, a.data)

/-- What the calls a probe makes on the object `hf` leave alone: every other
hands-free object, the registry and the descriptors, the allocator, the modems'
paths and atom lists, and of every atom whether it is live and the members it
was created with. -/
def probe_frame (hf : HfPtr) (w w1 : World) : Prop :=
  (∀ p, p ≠ hf → w1.hfs p = w.hfs p) ∧
  w1.g_drivers = w.g_drivers ∧ w1.drivers = w.drivers ∧ w1.brk = w.brk ∧
  w1.modem_path = w.modem_path ∧ w1.modem_atoms = w.modem_atoms ∧
  (∀ q, (w1.atoms q).map atom_core = (w.atoms q).map atom_core)

/-! ## Sequences of calls on the atoms -/

/-- A call on an existing atom or on the registry: the operations that can
follow `ofono_handsfree_create`. -/
inductive HfCall where
  | set_inband_ringing (hf : HfPtr) (enabled : Int)
  | set_data (hf : HfPtr) (data : VoidPtr)
  | get_data (hf : HfPtr)
  | register (hf : HfPtr)
  | get_properties (reply_ok : Bool) (msg : DBusMessage) (hf : HfPtr)
  | set_property (msg : DBusMessage) (hf : HfPtr)
  | driver_register (d : DrvPtr)
  | driver_unregister (d : DrvPtr)

/-- One call, through the functions of `handsfree.c`; return values are dropped. -/
def hf_step (w : World) : HfCall → Option World
  | .set_inband_ringing hf enabled => ofono_handsfree_set_inband_ringing w hf enabled
  | .set_data hf data => ofono_handsfree_set_data w hf data
  | .get_data hf =>
    match ofono_handsfree_get_data w hf with
    | none => none
    | some _ => some w
  | .register hf => ofono_handsfree_register w hf
  | .get_properties reply_ok msg hf =>
    match handsfree_get_properties w reply_ok msg hf with
    | none => none
    | some r => some r.2
  | .set_property msg hf => some (handsfree_set_property w msg hf).2
  | .driver_register d => some (ofono_handsfree_driver_register w d).2
  | .driver_unregister d => some (ofono_handsfree_driver_unregister w d)

/-- A sequence of calls, first call first. -/
def hf_run (w : World) : List HfCall → Option World
  | [] => some w
  | c :: cs =>
    match hf_step w c with
    | none => none
    | some w1 => hf_run w1 cs

/-- Whether `hf` is the address of a live hands-free object. -/
def hf_live (w : World) (hf : HfPtr) : Bool :=
  (w.hfs hf).isSome

/-- Whether `hf` is the address of a live hands-free object whose `atom` member
points to a live atom, as it does from `ofono_handsfree_create` on. -/
def hf_ready (w : World) (hf : HfPtr) : Bool :=
  match w.hfs hf with
  | none => false
  | some h =>
    match h.atom with
    | none => false
    | some a => (w.atoms a).isSome

/-- Whether the pointers a call is given are valid in state `w`. -/
def call_ready (w : World) : HfCall → Bool
  | .set_inband_ringing hf _ => hf_ready w hf
  | .set_data hf _ => hf_live w hf
  | .get_data hf => hf_live w hf
  | .register hf => hf_ready w hf
  | .get_properties _ _ hf => hf_live w hf
  | .set_property _ _ => true
  | .driver_register _ => true
  | .driver_unregister _ => true

/-- The states `w` and `w1` have the same live atoms and the same live
hands-free objects, each with the `driver` and `atom` members it had. -/
def same_binding (w w1 : World) : Prop :=
  (∀ p, (w1.hfs p).map (fun h => (h.driver, h.atom)) =
      (w.hfs p).map (fun h => (h.driver, h.atom))) ∧
  (∀ a, (w1.atoms a).isSome = (w.atoms a).isSome)

/-! ## Example state -/

/-- A driver named `hfp` whose probe always fails with `-ENODEV`. -/
def drvA : ofono_handsfree_driver :=
  { name := some "hfp", probe := some (fun _ _ => (-19, [])), remove := none }

/-- A driver named `hfp` whose probe always succeeds and attaches private state;
it has a remove hook. -/
def drvB : ofono_handsfree_driver :=
  { name := some "hfp", probe := some (fun _ d => (0, [ProbeAction.set_data (d + 1)])),
    remove := some (fun _ => 0) }

/-- A driver with another name whose probe always succeeds. -/
def drvC : ofono_handsfree_driver :=
  { name := some "other", probe := some (fun _ _ => (0, [])), remove := none }

/-- A driver named `ring` whose probe reports an incoming in-band ring setting
and then fails with `-ENODEV`. -/
def drvE : ofono_handsfree_driver :=
  { name := some "ring",
    probe := some (fun _ _ => (-19, [ProbeAction.set_inband_ringing 1])), remove := none }

/-- A descriptor without a probe function. -/
def drvD : ofono_handsfree_driver :=
  { name := some "hfp", probe := none, remove := none }

/-- Descriptor memory: `drvA` at 1, `drvB` at 2, `drvC` at 3, `drvE` at 4, `drvD`
elsewhere. -/
def exDrivers : DrvPtr → ofono_handsfree_driver := fun d =>
  if d = 1 then drvA else if d = 2 then drvB else if d = 3 then drvC
  else if d = 4 then drvE else drvD

/-- The state at daemon start: nothing registered, nothing allocated. -/
def exWorld : World :=
  { g_drivers := [], drivers := exDrivers, hfs := fun _ => none, atoms := fun _ => none,
    brk := 100, modem_path := fun _ => "/hfp_0", modem_atoms := fun _ => [],
    interfaces := [], bus := [], signals := [], calls := [] }

/-- The state after `register A`, `register B`, `register C`. -/
def exWorldABC : World :=
  reg_run exWorld [RegCall.register 1, RegCall.register 2, RegCall.register 3]

/-- An atom at address 11 of modem 5, carrying the hands-free object at 10. -/
def exAtom : ofono_atom :=
  { type := ofono_atom_type.OFONO_ATOM_TYPE_HANDSFREE, modem := 5,
    destruct := some Callback.handsfree_remove, unregister := none, data := some 10 }

/-- An atom at address 12 of modem 5 that carries no hands-free data. -/
def exAtomNoData : ofono_atom :=
  { type := ofono_atom_type.OFONO_ATOM_TYPE_HANDSFREE, modem := 5,
    destruct := some Callback.handsfree_remove, unregister := none, data := none }

/-- The state after `register E`: the only candidate is a driver whose probe
calls `ofono_handsfree_set_inband_ringing(hf, 1)` and then fails. -/
def exWorldE : World :=
  reg_run exWorld [RegCall.register 4]

/-- A state with one hands-free object at 10, bound to `drvB`, its atom at 11,
and an atom without hands-free data at 12. -/
def exWorldBound : World :=
  { exWorldABC with
    hfs := fun p =>
      if p = 10 then
        some { inband_ringing := 0, driver := some 2, driver_data := 8, atom := some 11 }
      else none
    atoms := fun p =>
      if p = 11 then some exAtom else if p = 12 then some exAtomNoData else none }

/-! ## Lemmas on lists and strings -/

theorem g_slist_remove_eq_erase (l : List DrvPtr) (d : DrvPtr) :
    g_slist_remove l d = l.erase d := by
  induction l with
  | nil => rfl
  | cons x l ih =>
    by_cases hx : x = d
    · simp [g_slist_remove, hx]
    · simp [g_slist_remove, hx, List.erase_cons_tail, ih]

theorem filter_ne_erase (l : List DrvPtr) (d : DrvPtr) :
    (l.erase d).filter (fun x => decide (x ≠ d)) = l.filter (fun x => decide (x ≠ d)) := by
  induction l with
  | nil => rfl
  | cons x l ih =>
    by_cases hx : x = d
    · simp [hx]
    · have ih2 := ih
      simp only [ne_eq, decide_not] at ih2
      simp [List.erase_cons_tail, hx, ih2]

theorem strcmp_eq_zero (a b : List Char) : strcmp a b = 0 ↔ a = b := by
  induction a generalizing b with
  | nil => cases b <;> simp [strcmp]
  | cons x a ih =>
    cases b with
    | nil => simp [strcmp]
    | cons y b =>
      simp only [strcmp]
      by_cases h1 : x.toNat < y.toNat
      · have hne : x ≠ y := fun h => by simp [h] at h1
        simp [h1, hne]
      · by_cases h2 : y.toNat < x.toNat
        · have hne : x ≠ y := fun h => by simp [h] at h2
          simp [h1, h2, hne]
        · have hxy : x = y := by
            apply Char.ext
            apply UInt32.ext
            have : x.toNat = y.toNat := by omega
            exact this
          simp [h1, h2, hxy, ih]

theorem g_strcmp0_eq_zero (x : Option String) (s : String) :
    g_strcmp0 x (some s) = 0 ↔ x = some s := by
  cases x with
  | none => simp [g_strcmp0]
  | some a =>
    simp only [g_strcmp0, strcmp_eq_zero, Option.some.injEq]
    constructor
    · intro h
      exact String.ext h
    · intro h
      rw [h]

theorem tried_eq (ok : DrvPtr → Bool) (l : List DrvPtr) :
    tried ok l = l.takeWhile (fun d => !ok d) ++ (l.find? ok).toList := by
  induction l with
  | nil => rfl
  | cons d l ih =>
    cases hd : ok d <;> simp [tried, hd, List.takeWhile_cons, List.find?_cons, ih]

theorem tried_filter (ok : DrvPtr → Bool) (l : List DrvPtr) :
    (tried ok l).filter ok = (l.find? ok).toList := by
  induction l with
  | nil => rfl
  | cons d l ih =>
    cases hd : ok d <;> simp [tried, hd, List.filter_cons, List.find?_cons, ih]

theorem find_filter (p q : DrvPtr → Bool) (l : List DrvPtr) :
    (l.filter p).find? q = l.find? (fun d => p d && q d) := by
  induction l with
  | nil => rfl
  | cons d l ih =>
    cases hp : p d <;> cases hq : q d <;>
      simp [List.filter_cons, List.find?_cons, hp, hq, ih]

theorem tried_subset (ok : DrvPtr → Bool) (l : List DrvPtr) :
    ∀ d ∈ tried ok l, d ∈ l := by
  induction l with
  | nil => intro d hd; simp [tried] at hd
  | cons x l ih =>
    intro d hd
    cases hx : ok x with
    | true =>
      simp only [tried, hx, if_true, List.mem_singleton] at hd
      rw [hd]
      exact List.mem_cons_self x l
    | false =>
      simp only [tried, hx, Bool.false_eq_true, if_false, List.mem_cons] at hd
      rcases hd with hd | hd
      · rw [hd]
        exact List.mem_cons_self x l
      · exact List.mem_cons_of_mem x (ih d hd)

/-! ## Lemmas on registry calls -/

theorem reg_step_frame (w : World) (c : RegCall) :
    reg_step w c = { w with g_drivers := (reg_step w c).g_drivers } := by
  cases c with
  | register d =>
    simp only [reg_step, ofono_handsfree_driver_register]
    cases (w.drivers d).probe <;> rfl
  | unregister d => rfl

theorem reg_run_frame (calls : List RegCall) :
    ∀ w : World, reg_run w calls = { w with g_drivers := (reg_run w calls).g_drivers } := by
  induction calls with
  | nil => intro w; rfl
  | cons c calls ih =>
    intro w
    have h1 := ih (reg_step w c)
    have h2 := reg_step_frame w c
    simp only [reg_run, List.foldl_cons] at h1 ⊢
    rw [h1]
    rw [h2]

theorem reg_run_log (calls : List RegCall) :
    ∀ (w : World) (log : List DrvPtr), w.g_drivers = log.reverse →
      (reg_run w calls).g_drivers = (registration_log w.drivers calls log).reverse := by
  induction calls with
  | nil =>
    intro w log h
    simpa [reg_run, registration_log] using h
  | cons c calls ih =>
    intro w log h
    have hd : (reg_step w c).drivers = w.drivers := by
      rw [reg_step_frame w c]
    cases c with
    | register d =>
      have := ih (reg_step w (RegCall.register d))
        (if (w.drivers d).probe.isSome then log ++ [d] else log) (by
          simp only [reg_step, ofono_handsfree_driver_register]
          cases hp : (w.drivers d).probe <;> simp [h, g_slist_prepend])
      rw [hd] at this
      simpa [reg_run, registration_log] using this
    | unregister d =>
      have := ih (reg_step w (RegCall.unregister d)) (log.reverse.erase d).reverse (by
          simp [reg_step, ofono_handsfree_driver_unregister, g_slist_remove_eq_erase, h])
      rw [hd] at this
      simpa [reg_run, registration_log] using this

theorem reg_run_probes (calls : List RegCall) :
    ∀ w : World, (∀ d ∈ w.g_drivers, (w.drivers d).probe.isSome = true) →
      ∀ d ∈ (reg_run w calls).g_drivers, (w.drivers d).probe.isSome = true := by
  induction calls with
  | nil => intro w h; simpa [reg_run] using h
  | cons c calls ih =>
    intro w h
    have hd : (reg_step w c).drivers = w.drivers := by
      rw [reg_step_frame w c]
    have hstep : ∀ d ∈ (reg_step w c).g_drivers, ((reg_step w c).drivers d).probe.isSome = true := by
      rw [hd]
      cases c with
      | register x =>
        simp only [reg_step, ofono_handsfree_driver_register]
        cases hp : (w.drivers x).probe with
        | none => simpa using h
        | some p =>
          intro d hmem
          simp only [g_slist_prepend, List.mem_cons] at hmem
          rcases hmem with rfl | hmem
          · simp [hp]
          · exact h d hmem
      | unregister x =>
        intro d hmem
        simp only [reg_step, ofono_handsfree_driver_unregister, g_slist_remove_eq_erase] at hmem
        exact h d (List.mem_of_mem_erase hmem)
    have := ih (reg_step w c) hstep
    rw [hd] at this
    simpa [reg_run] using this

/-! ## Lemmas on calls that follow creation -/

theorem handsfree_set_property_eq (w : World) (msg : DBusMessage) (data : HfPtr) :
    handsfree_set_property w msg data = (__ofono_error_invalid_args msg, w) := by
  unfold handsfree_set_property
  dsimp only
  split_ifs <;> rfl

theorem same_binding_refl (w : World) : same_binding w w :=
  ⟨fun _ => rfl, fun _ => rfl⟩

theorem same_binding_trans (w w1 w2 : World) (h1 : same_binding w w1)
    (h2 : same_binding w1 w2) : same_binding w w2 :=
  ⟨fun p => (h2.1 p).trans (h1.1 p), fun a => (h2.2 a).trans (h1.2 a)⟩

theorem same_binding_store_hf (w : World) (hf : HfPtr) (h h1 : ofono_handsfree)
    (hlive : w.hfs hf = some h) (hd : h1.driver = h.driver) (ha : h1.atom = h.atom) :
    same_binding w (w.store_hf hf (some h1)) := by
  refine ⟨?_, fun _ => rfl⟩
  intro p
  by_cases hp : p = hf
  · simp [World.store_hf, hp, hlive, hd, ha]
  · simp [World.store_hf, hp]

theorem hf_live_of_same_binding (w w1 : World) (hs : same_binding w w1) (hf : HfPtr) :
    hf_live w1 hf = hf_live w hf := by
  have h := hs.1 hf
  unfold hf_live
  cases h1 : w1.hfs hf <;> cases h0 : w.hfs hf <;> simp [h1, h0] at h ⊢

theorem hf_ready_of_same_binding (w w1 : World) (hs : same_binding w w1) (hf : HfPtr) :
    hf_ready w1 hf = hf_ready w hf := by
  have h := hs.1 hf
  unfold hf_ready
  cases h1 : w1.hfs hf with
  | none => cases h0 : w.hfs hf <;> simp [h1, h0] at h ⊢
  | some x =>
    cases h0 : w.hfs hf with
    | none => simp [h1, h0] at h
    | some y =>
      simp only [h1, h0, Option.map_some', Option.some.injEq, Prod.mk.injEq] at h
      simp only [h.2]
      cases y.atom with
      | none => rfl
      | some a => exact hs.2 a

theorem call_ready_of_same_binding (w w1 : World) (hs : same_binding w w1) (c : HfCall) :
    call_ready w1 c = call_ready w c := by
  cases c <;>
    simp only [call_ready, hf_live_of_same_binding w w1 hs, hf_ready_of_same_binding w w1 hs]

theorem hf_ready_elim (w : World) (hf : HfPtr) (hr : hf_ready w hf = true) :
    ∃ h a atm, w.hfs hf = some h ∧ h.atom = some a ∧ w.atoms a = some atm := by
  unfold hf_ready at hr
  cases h0 : w.hfs hf with
  | none => simp [h0] at hr
  | some h =>
    cases ha : h.atom with
    | none => simp [h0, ha] at hr
    | some a =>
      cases hatm : w.atoms a with
      | none => simp [h0, ha, hatm] at hr
      | some atm => exact ⟨h, a, atm, rfl, ha, hatm⟩

theorem hf_live_elim (w : World) (hf : HfPtr) (hr : hf_live w hf = true) :
    ∃ h, w.hfs hf = some h := by
  unfold hf_live at hr
  cases h0 : w.hfs hf with
  | none => simp [h0] at hr
  | some h => exact ⟨h, rfl⟩

theorem hf_step_same_binding (w : World) (c : HfCall) (hr : call_ready w c = true) :
    ∃ w1, hf_step w c = some w1 ∧ same_binding w w1 := by
  cases c with
  | set_inband_ringing hf v =>
    obtain ⟨h, a, atm, hlive, hatom, ha⟩ := hf_ready_elim w hf hr
    by_cases hv : h.inband_ringing = v
    · exact ⟨w, by simp [hf_step, ofono_handsfree_set_inband_ringing, hlive,
        __ofono_atom_get_path, hatom, ha, hv], same_binding_refl w⟩
    · have hstep : hf_step w (HfCall.set_inband_ringing hf v) = some
          (ofono_dbus_signal_property_changed
            (w.store_hf hf (some { h with inband_ringing := v }))
            (w.modem_path atm.modem) OFONO_HANDSFREE_INTERFACE "InbandRinging"
            DBUS_TYPE_BOOLEAN (DBusValue.bool (to_dbus_bool v))) := by
        simp only [hf_step, ofono_handsfree_set_inband_ringing, hlive,
          __ofono_atom_get_path, hatom, ha, hv, Option.map_some', if_false]
      exact ⟨_, hstep, same_binding_store_hf w hf h { h with inband_ringing := v } hlive rfl rfl⟩
  | set_data hf data =>
    obtain ⟨h, hlive⟩ := hf_live_elim w hf hr
    have hstep : hf_step w (HfCall.set_data hf data) =
        some (w.store_hf hf (some { h with driver_data := data })) := by
      simp only [hf_step, ofono_handsfree_set_data, hlive]
    exact ⟨_, hstep, same_binding_store_hf w hf h { h with driver_data := data } hlive rfl rfl⟩
  | get_data hf =>
    obtain ⟨h, hlive⟩ := hf_live_elim w hf hr
    exact ⟨w, by simp [hf_step, ofono_handsfree_get_data, hlive], same_binding_refl w⟩
  | register hf =>
    obtain ⟨h, a, atm, hlive, hatom, ha⟩ := hf_ready_elim w hf hr
    by_cases hbus : (w.bus.any fun e =>
        decide (e.1 = w.modem_path atm.modem ∧ e.2.1 = OFONO_HANDSFREE_INTERFACE)) = true
    · have hstep : hf_step w (HfCall.register hf) = some w := by
        simp only [hf_step, ofono_handsfree_register, hlive, __ofono_atom_get_modem,
          __ofono_atom_get_path, hatom, ha, Option.map_some', g_dbus_register_interface]
        rw [if_pos hbus]
      exact ⟨w, hstep, same_binding_refl w⟩
    · have hstep : hf_step w (HfCall.register hf) = some
          (World.store_atom
            { w with
              interfaces := (atm.modem, OFONO_HANDSFREE_INTERFACE) :: w.interfaces
              bus := (w.modem_path atm.modem, OFONO_HANDSFREE_INTERFACE, hf) :: w.bus }
            a (some { atm with unregister := some Callback.handsfree_unregister })) := by
        simp only [hf_step, ofono_handsfree_register, hlive, __ofono_atom_get_modem,
          __ofono_atom_get_path, hatom, ha, Option.map_some', g_dbus_register_interface]
        rw [if_neg hbus]
        simp only [__ofono_atom_register, ofono_modem_add_interface, ha]
      refine ⟨_, hstep, fun _ => rfl, ?_⟩
      intro q
      by_cases hq : q = a
      · simp [World.store_atom, hq, ha]
      · simp [World.store_atom, hq]
  | get_properties ok msg hf =>
    obtain ⟨h, hlive⟩ := hf_live_elim w hf hr
    cases ok
    · exact ⟨w, by simp [hf_step, handsfree_get_properties], same_binding_refl w⟩
    · exact ⟨w, by simp [hf_step, handsfree_get_properties, hlive], same_binding_refl w⟩
  | set_property msg hf =>
    exact ⟨w, by simp [hf_step, handsfree_set_property_eq], same_binding_refl w⟩
  | driver_register d =>
    refine ⟨_, rfl, ?_⟩
    unfold ofono_handsfree_driver_register
    cases (w.drivers d).probe <;> exact ⟨fun _ => rfl, fun _ => rfl⟩
  | driver_unregister d =>
    exact ⟨_, rfl, fun _ => rfl, fun _ => rfl⟩

theorem hf_run_same_binding (calls : List HfCall) :
    ∀ w : World, (∀ c ∈ calls, call_ready w c = true) →
      ∃ w1, hf_run w calls = some w1 ∧ same_binding w w1 := by
  induction calls with
  | nil => intro w _; exact ⟨w, rfl, same_binding_refl w⟩
  | cons c calls ih =>
    intro w hr
    obtain ⟨w1, hstep, hs1⟩ := hf_step_same_binding w c (hr c (List.mem_cons_self c calls))
    obtain ⟨w2, hrun, hs2⟩ := ih w1 (fun x hx => by
      rw [call_ready_of_same_binding w w1 hs1]
      exact hr x (List.mem_cons_of_mem c hx))
    exact ⟨w2, by simp only [hf_run, hstep, hrun], same_binding_trans w w1 w2 hs1 hs2⟩

/-! ## The calls a probe makes -/

theorem probe_frame_refl (hf : HfPtr) (w : World) : probe_frame hf w w :=
  ⟨fun _ _ => rfl, rfl, rfl, rfl, rfl, rfl, fun _ => rfl⟩

theorem probe_frame_trans (hf : HfPtr) (w w1 w2 : World) (h1 : probe_frame hf w w1)
    (h2 : probe_frame hf w1 w2) : probe_frame hf w w2 := by
  obtain ⟨a1, b1, c1, d1, e1, f1, g1⟩ := h1
  obtain ⟨a2, b2, c2, d2, e2, f2, g2⟩ := h2
  exact ⟨fun p hp => (a2 p hp).trans (a1 p hp), b2.trans b1, c2.trans c1, d2.trans d1,
    e2.trans e1, f2.trans f1, fun q => (g2 q).trans (g1 q)⟩

theorem probe_frame_store_hf (hf : HfPtr) (w : World) (x : Option ofono_handsfree) :
    probe_frame hf w (w.store_hf hf x) :=
  ⟨fun p hp => by simp [World.store_hf, hp], rfl, rfl, rfl, rfl, rfl, fun _ => rfl⟩

theorem probe_action_spec (w : World) (hf : HfPtr) (h : ofono_handsfree) (a : AtomPtr)
    (atm : ofono_atom) (act : ProbeAction)
    (hlive : w.hfs hf = some h) (hatom : h.atom = some a) (ha : w.atoms a = some atm) :
    ∃ w1 atm1, probe_action w hf act = some w1 ∧
      w1.hfs hf = some { h with
        inband_ringing := cache_step h.inband_ringing act
        driver_data := slot_step h.driver_data act } ∧
      w1.atoms a = some atm1 ∧ w1.calls = w.calls ∧ probe_frame hf w w1 := by
  cases act with
  | set_data x =>
    refine ⟨w.store_hf hf (some { h with driver_data := x }), atm, ?_, ?_, ha, rfl,
      probe_frame_store_hf hf w _⟩
    · simp only [probe_action, ofono_handsfree_set_data, hlive]
    · simp [World.store_hf, cache_step, slot_step]
  | set_inband_ringing e =>
    by_cases hv : h.inband_ringing = e
    · refine ⟨w, atm, ?_, ?_, ha, rfl, probe_frame_refl hf w⟩
      · simp [probe_action, ofono_handsfree_set_inband_ringing, hlive,
          __ofono_atom_get_path, hatom, ha, hv]
      · rw [hlive, ← hv]
        simp [cache_step, slot_step]
    · refine ⟨ofono_dbus_signal_property_changed
          (w.store_hf hf (some { h with inband_ringing := e }))
          (w.modem_path atm.modem) OFONO_HANDSFREE_INTERFACE "InbandRinging"
          DBUS_TYPE_BOOLEAN (DBusValue.bool (to_dbus_bool e)), atm, ?_, ?_, ha, rfl, ?_⟩
      · simp only [probe_action, ofono_handsfree_set_inband_ringing, hlive,
          __ofono_atom_get_path, hatom, ha, hv, Option.map_some', if_false]
      · simp [ofono_dbus_signal_property_changed, World.store_hf, cache_step, slot_step]
      · exact ⟨fun p hp => by simp [ofono_dbus_signal_property_changed, World.store_hf, hp],
          rfl, rfl, rfl, rfl, rfl, fun _ => rfl⟩
  | register =>
    by_cases hbus : (w.bus.any fun e =>
        decide (e.1 = w.modem_path atm.modem ∧ e.2.1 = OFONO_HANDSFREE_INTERFACE)) = true
    · refine ⟨w, atm, ?_, ?_, ha, rfl, probe_frame_refl hf w⟩
      · simp only [probe_action, ofono_handsfree_register, hlive, __ofono_atom_get_modem,
          __ofono_atom_get_path, hatom, ha, Option.map_some', g_dbus_register_interface]
        rw [if_pos hbus]
      · rw [hlive]
        simp [cache_step, slot_step]
    · refine ⟨World.store_atom
          { w with
            interfaces := (atm.modem, OFONO_HANDSFREE_INTERFACE) :: w.interfaces
            bus := (w.modem_path atm.modem, OFONO_HANDSFREE_INTERFACE, hf) :: w.bus }
          a (some { atm with unregister := some Callback.handsfree_unregister }),
        { atm with unregister := some Callback.handsfree_unregister }, ?_, ?_, ?_, rfl, ?_⟩
      · simp only [probe_action, ofono_handsfree_register, hlive, __ofono_atom_get_modem,
          __ofono_atom_get_path, hatom, ha, Option.map_some', g_dbus_register_interface]
        rw [if_neg hbus]
        simp only [__ofono_atom_register, ofono_modem_add_interface, ha]
      · simp only [World.store_atom, hlive]
        simp [cache_step, slot_step]
      · simp [World.store_atom]
      · refine ⟨fun _ _ => rfl, rfl, rfl, rfl, rfl, rfl, ?_⟩
        intro q
        by_cases hq : q = a
        · simp [World.store_atom, hq, ha, atom_core]
        · simp [World.store_atom, hq]

theorem probe_actions_spec (hf : HfPtr) (a : AtomPtr) (acts : List ProbeAction) :
    ∀ (w : World) (h : ofono_handsfree) (atm : ofono_atom),
      w.hfs hf = some h → h.atom = some a → w.atoms a = some atm →
      ∃ w1 atm1, probe_actions w hf acts = some w1 ∧
        w1.hfs hf = some { h with
          inband_ringing := acts.foldl cache_step h.inband_ringing
          driver_data := acts.foldl slot_step h.driver_data } ∧
        w1.atoms a = some atm1 ∧ w1.calls = w.calls ∧ probe_frame hf w w1 := by
  induction acts with
  | nil =>
    intro w h atm hlive _ ha
    exact ⟨w, atm, rfl, by simpa using hlive, ha, rfl, probe_frame_refl hf w⟩
  | cons act acts ih =>
    intro w h atm hlive hatom ha
    obtain ⟨w1, atm1, hstep, hlive1, ha1, hc1, hf1⟩ :=
      probe_action_spec w hf h a atm act hlive hatom ha
    obtain ⟨w2, atm2, hrun, hlive2, ha2, hc2, hf2⟩ := ih w1 _ atm1 hlive1 hatom ha1
    refine ⟨w2, atm2, ?_, ?_, ha2, hc2.trans hc1, probe_frame_trans hf w w1 w2 hf1 hf2⟩
    · simp only [probe_actions, hstep, hrun]
    · rw [hlive2]
      simp [List.foldl_cons]

/-! ## The driver-selection loop -/

theorem call_probe_spec (w : World) (d : DrvPtr) (p : ProbeFn) (hf : HfPtr) (vendor : Nat)
    (data : VoidPtr) (h : ofono_handsfree) (a : AtomPtr) (atm : ofono_atom)
    (hlive : w.hfs hf = some h) (hatom : h.atom = some a) (ha : w.atoms a = some atm)
    (hp : (w.drivers d).probe = some p) :
    ∃ w1 atm1, call_probe w d p hf vendor data = some ((p vendor data).1, w1) ∧
      w1.hfs hf = some { h with
        inband_ringing := cache_after w.drivers vendor data h.inband_ringing d
        driver_data := slot_after w.drivers vendor data h.driver_data d } ∧
      w1.atoms a = some atm1 ∧
      w1.calls = w.calls ++ [DriverCall.probe d hf vendor data] ∧
      probe_frame hf w w1 := by
  obtain ⟨w1, atm1, hrun, hlive1, ha1, hc1, hf1⟩ :=
    probe_actions_spec hf a (p vendor data).2
      { w with calls := w.calls ++ [DriverCall.probe d hf vendor data] } h atm hlive hatom ha
  refine ⟨w1, atm1, ?_, ?_, ha1, hc1, hf1⟩
  · simp only [call_probe, hrun]
  · rw [hlive1]
    simp only [cache_after, slot_after, probe_script, hp]

theorem create_loop_spec (hf : HfPtr) (vendor : Nat) (name : String) (data : VoidPtr)
    (a : AtomPtr) :
    ∀ (l : List DrvPtr) (w : World) (h : ofono_handsfree) (atm : ofono_atom),
      w.hfs hf = some h → h.atom = some a → w.atoms a = some atm →
      (∀ d ∈ l, (w.drivers d).probe.isSome = true) →
      ∃ w1, create_loop w hf vendor name data l = some w1 ∧
        w1.hfs hf = some (hf_after_loop w.drivers vendor name data l h) ∧
        w1.calls = w.calls ++ probes_of_loop w.drivers hf vendor name data l ∧
        probe_frame hf w w1 := by
  intro l
  induction l with
  | nil =>
    intro w h atm hlive _ _ _
    refine ⟨w, rfl, ?_, ?_, probe_frame_refl hf w⟩
    · rw [hlive]
      simp [hf_after_loop, tried, spec_select]
    · simp [probes_of_loop, tried]
  | cons d l ih =>
    intro w h atm hlive hatom ha hprobes
    have hl : ∀ x ∈ l, (w.drivers x).probe.isSome = true :=
      fun x hx => hprobes x (List.mem_cons_of_mem d hx)
    by_cases hname : (w.drivers d).name = some name
    · have hm : name_matches w.drivers name d = true := by simp [name_matches, hname]
      have hcmp : g_strcmp0 (w.drivers d).name (some name) = 0 :=
        (g_strcmp0_eq_zero _ _).mpr hname
      cases hp : (w.drivers d).probe with
      | none =>
        have hd := hprobes d (List.mem_cons_self d l)
        simp [hp] at hd
      | some p =>
        obtain ⟨w1, atm1, hcall, hlive1, ha1, hc1, hf1⟩ :=
          call_probe_spec w d p hf vendor data h a atm hlive hatom ha hp
        have hdrv : w1.drivers = w.drivers := hf1.2.2.1
        by_cases hret : (p vendor data).1 < 0
        · have hok : probe_succeeds w.drivers vendor data d = false := by
            simp [probe_succeeds, hp, hret]
          obtain ⟨w2, hloop, hlive2, hc2, hf2⟩ := ih w1 _ atm1 hlive1 hatom ha1
            (by rw [hdrv]; exact hl)
          refine ⟨w2, ?_, ?_, ?_, probe_frame_trans hf w w1 w2 hf1 hf2⟩
          · simp only [create_loop, hcmp, ne_eq, not_true_eq_false, if_false, hp, hcall, hret,
              if_true, hloop]
          · rw [hlive2, hdrv]
            simp only [hf_after_loop, List.filter_cons, hm, if_true, tried, hok, spec_select,
              List.find?_cons, List.foldl_cons, Bool.false_eq_true, if_false]
          · rw [hc2, hc1, hdrv]
            simp only [probes_of_loop, List.filter_cons, hm, if_true, tried, hok,
              List.map_cons, Bool.false_eq_true, if_false, List.append_assoc,
              List.singleton_append]
        · have hok : probe_succeeds w.drivers vendor data d = true := by
            simp only [probe_succeeds, hp, decide_eq_true_eq]
            omega
          refine ⟨w1.store_hf hf (some { ({ h with
              inband_ringing := cache_after w.drivers vendor data h.inband_ringing d
              driver_data := slot_after w.drivers vendor data h.driver_data d } :
                ofono_handsfree) with driver := some d }), ?_, ?_, ?_,
            probe_frame_trans hf w w1 _ hf1 (probe_frame_store_hf hf w1 _)⟩
          · simp only [create_loop, hcmp, ne_eq, not_true_eq_false, if_false, hp, hcall, hret,
              hlive1]
          · simp only [World.store_hf, if_true, hf_after_loop, List.filter_cons, hm, tried, hok,
              spec_select, List.find?_cons, List.foldl_cons, List.foldl_nil]
          · simp only [World.store_hf, hc1, probes_of_loop, List.filter_cons, hm, if_true,
              tried, hok, List.map_cons, List.map_nil]
    · have hm : name_matches w.drivers name d = false := by simp [name_matches, hname]
      have hcmp : g_strcmp0 (w.drivers d).name (some name) ≠ 0 :=
        fun hc => hname ((g_strcmp0_eq_zero _ _).mp hc)
      obtain ⟨w2, hloop, hlive2, hc2, hf2⟩ := ih w h atm hlive hatom ha hl
      refine ⟨w2, ?_, ?_, ?_, hf2⟩
      · simp only [create_loop, hcmp, ne_eq, not_false_eq_true, if_true, hloop]
      · rw [hlive2]
        simp [hf_after_loop, List.filter_cons, hm]
      · rw [hc2]
        simp [probes_of_loop, List.filter_cons, hm]

theorem create_spec (w : World) (modem : ModemPtr) (vendor : Nat) (name : String)
    (data : VoidPtr) (hprobes : ∀ d ∈ w.g_drivers, (w.drivers d).probe.isSome = true) :
    ∃ w1, ofono_handsfree_create w true modem vendor (some name) data =
        some (some w.brk, w1) ∧
      w1.hfs w.brk = some (hf_after_loop w.drivers vendor name data w.g_drivers
        { hf_zero with atom := some (w.brk + 1) }) ∧
      w1.calls = w.calls ++ probes_of_loop w.drivers w.brk vendor name data w.g_drivers ∧
      (∀ p, p ≠ w.brk → w1.hfs p = w.hfs p) ∧
      w1.g_drivers = w.g_drivers ∧ w1.drivers = w.drivers ∧
      (w1.atoms (w.brk + 1)).map atom_core =
        some (ofono_atom_type.OFONO_ATOM_TYPE_HANDSFREE, modem,
          some Callback.handsfree_remove, some w.brk) ∧
      w1.modem_atoms modem = (w.brk + 1) :: w.modem_atoms modem := by
  obtain ⟨w1, hloop, hlive1, hc1, hf1⟩ := create_loop_spec w.brk vendor name data (w.brk + 1)
    w.g_drivers
    { w with
      hfs := fun q =>
        if q = w.brk then some { hf_zero with atom := some (w.brk + 1) } else w.hfs q
      atoms := fun q =>
        if q = w.brk + 1 then
          some { type := ofono_atom_type.OFONO_ATOM_TYPE_HANDSFREE, modem := modem,
                 destruct := some Callback.handsfree_remove, unregister := none,
                 data := some w.brk }
        else w.atoms q
      brk := w.brk + 2
      modem_atoms := fun m =>
        if m = modem then (w.brk + 1) :: w.modem_atoms m else w.modem_atoms m }
    { hf_zero with atom := some (w.brk + 1) }
    { type := ofono_atom_type.OFONO_ATOM_TYPE_HANDSFREE, modem := modem,
      destruct := some Callback.handsfree_remove, unregister := none, data := some w.brk }
    (by simp) rfl (by simp) hprobes
  have hw : (World.store_hf
      (__ofono_modem_add_atom (g_try_new0 w true).2 modem
        ofono_atom_type.OFONO_ATOM_TYPE_HANDSFREE Callback.handsfree_remove w.brk).2 w.brk
      (some { hf_zero with atom := some (w.brk + 1) })) =
      { w with
        hfs := fun q =>
          if q = w.brk then some { hf_zero with atom := some (w.brk + 1) } else w.hfs q
        atoms := fun q =>
          if q = w.brk + 1 then
            some { type := ofono_atom_type.OFONO_ATOM_TYPE_HANDSFREE, modem := modem,
                   destruct := some Callback.handsfree_remove, unregister := none,
                   data := some w.brk }
          else w.atoms q
        brk := w.brk + 2
        modem_atoms := fun m =>
          if m = modem then (w.brk + 1) :: w.modem_atoms m else w.modem_atoms m } := by
    apply World.ext <;> try rfl
    funext q
    by_cases hq : q = w.brk <;>
      simp [World.store_hf, World.store_atom, __ofono_modem_add_atom, g_try_new0, hq]
  have hcreate : ofono_handsfree_create w true modem vendor (some name) data =
      (create_loop (World.store_hf
        (__ofono_modem_add_atom (g_try_new0 w true).2 modem
          ofono_atom_type.OFONO_ATOM_TYPE_HANDSFREE Callback.handsfree_remove w.brk).2 w.brk
        (some { hf_zero with atom := some (w.brk + 1) })) w.brk vendor name data
        w.g_drivers).map (fun w4 => (some w.brk, w4)) := by
    simp only [ofono_handsfree_create, g_try_new0, if_true, __ofono_modem_add_atom,
      World.store_hf, World.store_atom]
    cases create_loop _ w.brk vendor name data w.g_drivers <;> rfl
  obtain ⟨f1, f2, f3, _, _, f6, f7⟩ := hf1
  refine ⟨w1, ?_, hlive1, hc1, ?_, f2, f3, ?_, ?_⟩
  · rw [hcreate, hw, hloop]
    rfl
  · intro p hp
    rw [f1 p hp]
    simp [hp]
  · rw [f7 (w.brk + 1)]
    simp [atom_core]
  · rw [f6]
    simp

theorem cache_fold_quiet (script : List ProbeAction) (c : Int)
    (hq : script.all (fun a => !is_ringing_call a) = true) :
    script.foldl cache_step c = c := by
  induction script with
  | nil => rfl
  | cons a script ih =>
    simp only [List.all_cons, Bool.and_eq_true] at hq
    rw [List.foldl_cons]
    cases a with
    | set_data x => exact ih hq.2
    | set_inband_ringing e => simp [is_ringing_call] at hq
    | register => exact ih hq.2

theorem cache_quiet (drivers : DrvPtr → ofono_handsfree_driver) (vendor : Nat)
    (data : VoidPtr) (ds : List DrvPtr) (c : Int)
    (hq : ∀ d ∈ ds,
      (probe_script drivers vendor data d).all (fun a => !is_ringing_call a) = true) :
    ds.foldl (cache_after drivers vendor data) c = c := by
  induction ds with
  | nil => rfl
  | cons d ds ih =>
    rw [List.foldl_cons]
    have h1 : cache_after drivers vendor data c d = c :=
      cache_fold_quiet _ c (hq d (List.mem_cons_self d ds))
    rw [h1]
    exact ih (fun x hx => hq x (List.mem_cons_of_mem d hx))

theorem hf_after_loop_quiet (drivers : DrvPtr → ofono_handsfree_driver) (vendor : Nat)
    (name : String) (data : VoidPtr) (l : List DrvPtr) (h : ofono_handsfree)
    (hq : quiet_probes drivers vendor name data l) :
    (hf_after_loop drivers vendor name data l h).inband_ringing = h.inband_ringing := by
  simp only [hf_after_loop]
  apply cache_quiet
  intro d hd
  have hmem := tried_subset _ _ d hd
  rw [List.mem_filter] at hmem
  exact hq d hmem.1 hmem.2

/-! ## Driver registry: register and unregister -/

/-- C4: `ofono_handsfree_driver_register d` returns `-EINVAL` and leaves the
state (the registry included) unchanged exactly when `d` has no probe function;
it returns `0` and makes the registry `d` followed by the previous registry,
changing nothing else, exactly when `d` has one; there is no third outcome. -/
theorem driver_register_spec (w : World) (d : DrvPtr) :
    (((ofono_handsfree_driver_register w d).1 = -EINVAL ∧
        (ofono_handsfree_driver_register w d).2 = w) ↔ (w.drivers d).probe = none) ∧
    (((ofono_handsfree_driver_register w d).1 = 0 ∧
        (ofono_handsfree_driver_register w d).2 = { w with g_drivers := d :: w.g_drivers }) ↔
      (w.drivers d).probe ≠ none) ∧
    ((ofono_handsfree_driver_register w d).2.g_drivers = w.g_drivers ∨
      (ofono_handsfree_driver_register w d).2.g_drivers = d :: w.g_drivers) := by
  unfold ofono_handsfree_driver_register
  cases hp : (w.drivers d).probe with
  | none => simp [EINVAL]
  | some p => simp [EINVAL, g_slist_prepend]

/-- C5 (as the code has it): `ofono_handsfree_driver_unregister d` unlinks the
first list node that holds `d`, that is the latest registration of `d`, and
changes nothing else.  Every other descriptor keeps its place relative to the
others, `d` loses exactly one of its entries, the state is unchanged when `d`
was absent, and `d` is no longer a candidate afterwards when it was in the list
at most once. -/
theorem driver_unregister_spec (w : World) (d : DrvPtr) :
    ofono_handsfree_driver_unregister w d = { w with g_drivers := w.g_drivers.erase d } ∧
    (ofono_handsfree_driver_unregister w d).g_drivers.filter (fun x => x ≠ d) =
      w.g_drivers.filter (fun x => x ≠ d) ∧
    (ofono_handsfree_driver_unregister w d).g_drivers.count d = w.g_drivers.count d - 1 ∧
    (d ∉ w.g_drivers → ofono_handsfree_driver_unregister w d = w) ∧
    (w.g_drivers.count d ≤ 1 → d ∉ (ofono_handsfree_driver_unregister w d).g_drivers) := by
  have h1 : ofono_handsfree_driver_unregister w d =
      { w with g_drivers := w.g_drivers.erase d } := by
    simp [ofono_handsfree_driver_unregister, g_slist_remove_eq_erase]
  refine ⟨h1, ?_, ?_, ?_, ?_⟩
  · rw [h1]
    exact filter_ne_erase w.g_drivers d
  · rw [h1]
    simp [List.count_erase_self]
  · intro hd
    rw [h1, List.erase_of_not_mem hd]
  · intro hc
    rw [h1]
    intro hmem
    have hpos : 0 < (w.g_drivers.erase d).count d := List.count_pos_iff.mpr hmem
    rw [List.count_erase_self] at hpos
    omega

/-- C5, witness: in the state after `register A, register B, register C`,
descriptor `B` is in the list once; unregistering it leaves `[C, A]`. -/
theorem driver_unregister_spec_witness :
    exWorldABC.g_drivers = [3, 2, 1] ∧
    (ofono_handsfree_driver_unregister exWorldABC 2).g_drivers = [3, 1] ∧
    2 ∉ (ofono_handsfree_driver_unregister exWorldABC 2).g_drivers :=
  ⟨by decide, by decide, (driver_unregister_spec exWorldABC 2).2.2.2.2 (by decide)⟩

/-- C5, counterexample to the claim as stated: `register B` twice is accepted
both times, and after one `unregister B` descriptor `B` is still a candidate. -/
theorem driver_unregister_counterexample :
    (ofono_handsfree_driver_register exWorld 2).1 = 0 ∧
    (ofono_handsfree_driver_register (ofono_handsfree_driver_register exWorld 2).2 2).1 = 0 ∧
    (ofono_handsfree_driver_register
      (ofono_handsfree_driver_register exWorld 2).2 2).2.g_drivers = [2, 2] ∧
    2 ∈ (ofono_handsfree_driver_unregister
      (ofono_handsfree_driver_register
        (ofono_handsfree_driver_register exWorld 2).2 2).2 2).g_drivers := by
  decide

/-! ## The property interface -/

/-- C3: whatever the message and the state, `handsfree_set_property` returns the
`InvalidArguments` error reply and hands the state back as it was: the cached
value, the bound driver, the driver data and the signal log are untouched. -/
theorem set_property_invalid_args (w : World) (msg : DBusMessage) (data : HfPtr) :
    handsfree_set_property w msg data =
      (DBusReply.error "org.ofono.Error.InvalidArguments", w) := by
  exact handsfree_set_property_eq w msg data

/-- C2: on a live atom, `ofono_handsfree_set_inband_ringing hf v` returns, and
the cached value is `v` afterwards, for every `int` value `v` (the values are
compared as C ints, as line 60 does).  When `v` equals the cached value the
state is unchanged (no signal).  When it differs, exactly one signal is
appended, `PropertyChanged("InbandRinging", v)` on the atom's path and the
hands-free interface, carrying `v` converted to `dbus_bool_t`, which is `v`
itself for `FALSE`, `TRUE` and every other value from 0 up to `2^32 - 1`; nothing
but the cached value and the signal log changes.  A second call with the same
`v` changes nothing and emits nothing. -/
theorem set_inband_ringing_spec (w : World) (hf : HfPtr) (h : ofono_handsfree) (a : AtomPtr)
    (atm : ofono_atom) (v : Int)
    (hlive : w.hfs hf = some h) (hatom : h.atom = some a) (ha : w.atoms a = some atm) :
    ∃ w1, ofono_handsfree_set_inband_ringing w hf v = some w1 ∧
      w1.hfs hf = some { h with inband_ringing := v } ∧
      (h.inband_ringing = v → w1 = w) ∧
      (h.inband_ringing ≠ v →
        w1 = { w.store_hf hf (some { h with inband_ringing := v }) with
          signals := w.signals ++
            [{ path := w.modem_path atm.modem, interface := "org.ofono.Handsfree",
               member := "PropertyChanged",
               args := [DBusValue.string "InbandRinging",
                        DBusValue.variant (DBusValue.bool (to_dbus_bool v))] }] }) ∧
      (0 ≤ v → v < 4294967296 → (to_dbus_bool v : Int) = v) ∧
      ofono_handsfree_set_inband_ringing w1 hf v = some w1 := by
  have hconv : 0 ≤ v → v < 4294967296 → (to_dbus_bool v : Int) = v := by
    intro h0 h1
    unfold to_dbus_bool
    rw [Int.toNat_of_nonneg (Int.emod_nonneg v (by norm_num))]
    exact Int.emod_eq_of_lt h0 h1
  by_cases hv : h.inband_ringing = v
  · refine ⟨w, ?_, ?_, fun _ => rfl, fun hne => absurd hv hne, hconv, ?_⟩
    · simp [ofono_handsfree_set_inband_ringing, hlive, __ofono_atom_get_path, hatom, ha, hv]
    · rw [hlive, ← hv]
    · simp [ofono_handsfree_set_inband_ringing, hlive, __ofono_atom_get_path, hatom, ha, hv]
  · refine ⟨_, ?_, ?_, fun he => absurd he hv, fun _ => rfl, hconv, ?_⟩
    · simp [ofono_handsfree_set_inband_ringing, hlive, __ofono_atom_get_path, hatom, ha, hv,
        ofono_dbus_signal_property_changed, OFONO_HANDSFREE_INTERFACE, World.store_hf]
    · simp [World.store_hf]
    · simp [ofono_handsfree_set_inband_ringing, __ofono_atom_get_path, hatom, ha,
        World.store_hf]

/-- C2, witness: the atom of `exWorldBound` caches 0; setting 1 emits one
signal, setting 1 again emits none. -/
theorem set_inband_ringing_spec_witness :
    ∃ w1, ofono_handsfree_set_inband_ringing exWorldBound 10 1 = some w1 ∧
      w1.signals.length = exWorldBound.signals.length + 1 ∧
      ofono_handsfree_set_inband_ringing w1 10 1 = some w1 := by
  obtain ⟨w1, h1, _, _, h4, _, h6⟩ :=
    set_inband_ringing_spec exWorldBound 10
      { inband_ringing := 0, driver := some 2, driver_data := 8, atom := some 11 }
      11 exAtom 1 (by rfl) (by rfl) (by rfl)
  refine ⟨w1, h1, ?_, h6⟩
  rw [h4 (by decide)]
  simp

/-- The comparison of line 60 is on the numbers: on the atom of `exWorldBound`,
which caches 0, the calls with 1, then 1, then 2 emit two signals, carrying 1
and 2, and leave 2 in the cache. -/
theorem set_inband_ringing_compares_ints :
    (((ofono_handsfree_set_inband_ringing exWorldBound 10 1).bind
        fun w1 => (ofono_handsfree_set_inband_ringing w1 10 1).bind
          fun w2 => ofono_handsfree_set_inband_ringing w2 10 2).map
      fun w3 => (w3.signals.map (fun s => s.args), (w3.hfs 10).map (fun h => h.inband_ringing))) =
      some ([[DBusValue.string "InbandRinging", DBusValue.variant (DBusValue.bool 1)],
             [DBusValue.string "InbandRinging", DBusValue.variant (DBusValue.bool 2)]],
            some 2) := by
  decide

/-- C9: `ofono_handsfree_create` binds at most one driver: the descriptors
whose probe it called with success are exactly the bound driver, if any, and
no object other than the new one is touched.  After that, along any sequence of
`ofono_handsfree_set_inband_ringing`, `ofono_handsfree_set_data`,
`ofono_handsfree_get_data`, `ofono_handsfree_register`, `GetProperties`,
`SetProperty` and driver register/unregister calls on valid pointers, every
call returns and at every point of the sequence each hands-free object has the
`driver` member it started with. -/
theorem driver_fixed_after_create (w : World) (calls : List HfCall)
    (hready : ∀ c ∈ calls, call_ready w c = true) :
    (∀ k, ∃ wk, hf_run w (calls.take k) = some wk ∧
      ∀ p, (wk.hfs p).map (fun h => h.driver) = (w.hfs p).map (fun h => h.driver)) ∧
    (∀ modem vendor name data, (∀ d ∈ w.g_drivers, (w.drivers d).probe.isSome = true) →
      ∃ (hf : HfPtr) (w1 : World) (h : ofono_handsfree) (probed : List DrvPtr),
        ofono_handsfree_create w true modem vendor (some name) data = some (some hf, w1) ∧
        w1.hfs hf = some h ∧
        w1.calls = w.calls ++ probed.map (fun d => DriverCall.probe d hf vendor data) ∧
        probed.filter (probe_succeeds w.drivers vendor data) = h.driver.toList ∧
        ∀ p, p ≠ hf → w1.hfs p = w.hfs p) := by
  refine ⟨?_, ?_⟩
  · intro k
    obtain ⟨wk, hrun, hs⟩ := hf_run_same_binding (calls.take k) w
      (fun c hc => hready c (List.mem_of_mem_take hc))
    refine ⟨wk, hrun, ?_⟩
    intro p
    have := congrArg (Option.map Prod.fst) (hs.1 p)
    simpa [Option.map_map, Function.comp] using this
  · intro modem vendor name data hprobes
    obtain ⟨w1, hcreate, hlive1, hcalls1, hother, _⟩ :=
      create_spec w modem vendor name data hprobes
    refine ⟨w.brk, w1, _, tried (probe_succeeds w.drivers vendor data)
        (w.g_drivers.filter (name_matches w.drivers name)), hcreate, hlive1, ?_, ?_, hother⟩
    · rw [hcalls1]
      rfl
    · rw [tried_filter]
      simp only [hf_after_loop, hf_zero, spec_select]
      cases List.find? (probe_succeeds w.drivers vendor data)
        (w.g_drivers.filter (name_matches w.drivers name)) <;> rfl

/-- C9, witness: a sequence of calls on the atom of `exWorldBound`, which is
bound to `drvB`, runs to the end and leaves it bound to `drvB`. -/
theorem driver_fixed_after_create_witness :
    ∃ w1,
      hf_run exWorldBound
        [HfCall.set_inband_ringing 10 1, HfCall.set_data 10 4, HfCall.register 10,
         HfCall.get_properties true { args := [] } 10,
         HfCall.set_property { args := [DBusValue.string "InbandRinging",
           DBusValue.variant (DBusValue.bool 1)] } 10,
         HfCall.driver_unregister 2, HfCall.driver_register 3, HfCall.get_data 10] = some w1 ∧
      Option.map (fun h => h.driver) (w1.hfs 10) = some (some 2) := by
  obtain ⟨w1, h1, h2⟩ :=
    (driver_fixed_after_create exWorldBound
      [HfCall.set_inband_ringing 10 1, HfCall.set_data 10 4, HfCall.register 10,
       HfCall.get_properties true { args := [] } 10,
       HfCall.set_property { args := [DBusValue.string "InbandRinging",
         DBusValue.variant (DBusValue.bool 1)] } 10,
       HfCall.driver_unregister 2, HfCall.driver_register 3, HfCall.get_data 10]
      (by decide)).1 8
  exact ⟨w1, h1, by rw [h2 10]; rfl⟩

/-! ## Teardown -/

/-- C7 (as the code has it): on an atom whose data pointer is NULL or holds a
live hands-free object, `handsfree_remove` returns.  With no hands-free data
nothing is released and the state is unchanged.  Otherwise the hands-free
object is released (its address holds nothing afterwards, every other address
is as before), and the log of driver calls grows by exactly one entry, the
bound driver's remove hook called on this object, when a driver is bound and
has a remove hook, and by nothing when no driver is bound or the bound driver
has no remove hook.  In no case does `handsfree_remove` release the
`struct ofono_atom` or unlink it from its modem: the atoms are as before. -/
theorem handsfree_remove_spec (w : World) (atom : AtomPtr) (a : ofono_atom)
    (ha : w.atoms atom = some a)
    (hdata : ∀ hf, a.data = some hf → w.hfs hf ≠ none) :
    ∃ w1, handsfree_remove w atom = some w1 ∧
      w1.atoms = w.atoms ∧ w1.modem_atoms = w.modem_atoms ∧
      (a.data = none → w1 = w) ∧
      (∀ hf, a.data = some hf → w1.hfs hf = none ∧ ∀ q, q ≠ hf → w1.hfs q = w.hfs q) ∧
      (∀ hf h, a.data = some hf → w.hfs hf = some h →
        (h.driver = none → w1.calls = w.calls) ∧
        (∀ drv, h.driver = some drv →
          ((w.drivers drv).remove = none → w1.calls = w.calls) ∧
          ((w.drivers drv).remove ≠ none →
            w1.calls = w.calls ++ [DriverCall.remove drv hf]))) := by
  cases hd : a.data with
  | none =>
    refine ⟨w, ?_, rfl, rfl, fun _ => rfl, ?_, ?_⟩
    · simp [handsfree_remove, __ofono_atom_get_data, ha, hd]
    · intro hf hcontra
      cases hcontra
    · intro hf h hcontra
      cases hcontra
  | some p =>
    cases hh : w.hfs p with
    | none => exact absurd hh (hdata p hd)
    | some h0 =>
      have hrun : handsfree_remove w atom = some
          ((match h0.driver with
            | none => w
            | some drv =>
              match (w.drivers drv).remove with
              | none => w
              | some remove => call_remove w drv remove p h0).store_hf p none) := by
        simp [handsfree_remove, __ofono_atom_get_data, ha, hd, hh]
      have hframe : ((match h0.driver with
            | none => w
            | some drv =>
              match (w.drivers drv).remove with
              | none => w
              | some remove => call_remove w drv remove p h0).store_hf p none).atoms = w.atoms ∧
          ((match h0.driver with
            | none => w
            | some drv =>
              match (w.drivers drv).remove with
              | none => w
              | some remove => call_remove w drv remove p h0).store_hf p none).modem_atoms =
            w.modem_atoms := by
        cases h0.driver with
        | none => exact ⟨rfl, rfl⟩
        | some drv =>
          cases hr : (w.drivers drv).remove with
          | none => simp [hr, World.store_hf]
          | some rm => simp [hr, World.store_hf, call_remove]
      refine ⟨_, hrun, hframe.1, hframe.2, ?_, ?_, ?_⟩
      · intro hcontra
        cases hcontra
      · intro hf hhf
        cases hhf
        refine ⟨by simp [World.store_hf], ?_⟩
        intro q hq
        cases h0.driver with
        | none => simp [World.store_hf, hq]
        | some drv =>
          cases hr : (w.drivers drv).remove with
          | none => simp [World.store_hf, hq, hr]
          | some rm => simp [World.store_hf, call_remove, hq, hr]
      · intro hf h hhf hlive
        cases hhf
        rw [hh] at hlive
        cases hlive
        refine ⟨?_, ?_⟩
        · intro hnone
          simp [hnone, World.store_hf]
        · intro drv hdrv
          refine ⟨?_, ?_⟩
          · intro hrm
            simp [hdrv, hrm, World.store_hf]
          · intro hrm
            cases hr : (w.drivers drv).remove with
            | none => exact absurd hr hrm
            | some rm => simp [hdrv, hr, World.store_hf, call_remove]

/-- C7, witness: tearing down the atom of `exWorldBound`, which is bound to
`drvB`, calls `drvB`'s remove hook once and releases the object at 10. -/
theorem handsfree_remove_spec_witness :
    ∃ w1, handsfree_remove exWorldBound 11 = some w1 ∧
      w1.hfs 10 = none ∧ w1.calls = exWorldBound.calls ++ [DriverCall.remove 2 10] := by
  obtain ⟨w1, h1, _, _, _, h3, h4⟩ :=
    handsfree_remove_spec exWorldBound 11 exAtom (by rfl) (by
      intro hf hhf
      cases hhf
      decide)
  refine ⟨w1, h1, (h3 10 rfl).1, ?_⟩
  exact ((h4 10 { inband_ringing := 0, driver := some 2, driver_data := 8, atom := some 11 }
    rfl rfl).2 2 rfl).2 (Option.some_ne_none (fun _ => 0))

/-- C7, counterexample to the claim as stated: the atom at 12 of `exWorldBound`
carries no hands-free data; `handsfree_remove` on it returns at once and leaves
the state as it was, so nothing has been released: the atom is still live and
so is the hands-free object at 10. -/
theorem handsfree_remove_counterexample :
    exWorldBound.atoms 12 = some exAtomNoData ∧ exAtomNoData.data = none ∧
    handsfree_remove exWorldBound 12 = some exWorldBound ∧
    exWorldBound.hfs 10 =
      some { inband_ringing := 0, driver := some 2, driver_data := 8, atom := some 11 } :=
  ⟨rfl, rfl, rfl, rfl⟩

/-! ## Creation and driver selection -/

/-- C1 (as the code has it): after any sequence of register/unregister calls on
an empty registry, the list `g_drivers` is the registrations in force, latest
first.  `ofono_handsfree_create`, given a driver name and memory, returns an
object; it walks that list and probes only the descriptors whose name is the
requested one, in list order, stopping at the first probe that succeeds.  The
bound driver is that first success (none when there is none), and the probe
calls logged are exactly the name-matching descriptors before it, then it. -/
theorem create_probe_order (w0 : World) (calls : List RegCall) (modem : ModemPtr)
    (vendor : Nat) (name : String) (data : VoidPtr) (hempty : w0.g_drivers = []) :
    (reg_run w0 calls).g_drivers = (registration_log w0.drivers calls []).reverse ∧
    ∃ hf w1 h,
      ofono_handsfree_create (reg_run w0 calls) true modem vendor (some name) data =
        some (some hf, w1) ∧
      w1.hfs hf = some h ∧
      h.driver = spec_select w0.drivers vendor data
        ((registration_log w0.drivers calls []).reverse.filter (name_matches w0.drivers name)) ∧
      w1.calls = w0.calls ++
        (((registration_log w0.drivers calls []).reverse.filter
            (name_matches w0.drivers name)).takeWhile
            (fun d => !probe_succeeds w0.drivers vendor data d) ++ h.driver.toList).map
          (fun d => DriverCall.probe d hf vendor data) := by
  have hlog := reg_run_log calls w0 [] (by simp [hempty])
  have hframe := reg_run_frame calls w0
  have hdrv : (reg_run w0 calls).drivers = w0.drivers := by rw [hframe]
  have hcalls : (reg_run w0 calls).calls = w0.calls := by rw [hframe]
  have hprobes : ∀ d ∈ (reg_run w0 calls).g_drivers,
      ((reg_run w0 calls).drivers d).probe.isSome = true := by
    rw [hdrv]
    exact reg_run_probes calls w0 (by simp [hempty])
  obtain ⟨w1, hcreate, hlive1, hcalls1, _⟩ :=
    create_spec (reg_run w0 calls) modem vendor name data hprobes
  refine ⟨hlog, (reg_run w0 calls).brk, w1, _, hcreate, hlive1, ?_, ?_⟩
  · simp only [hf_after_loop, hf_zero, hdrv, hlog]
    cases spec_select w0.drivers vendor data
      ((registration_log w0.drivers calls []).reverse.filter (name_matches w0.drivers name)) <;>
      rfl
  · rw [hcalls1]
    simp only [probes_of_loop, hf_after_loop, hf_zero, hdrv, hlog, hcalls, tried_eq,
      spec_select]
    cases List.find? (probe_succeeds w0.drivers vendor data)
      ((registration_log w0.drivers calls []).reverse.filter (name_matches w0.drivers name)) <;>
      rfl

/-- C1, witness: after `register A, register B, register C` the list is
`[C, B, A]`; creating an `hfp` atom probes `B` only and binds it. -/
theorem create_probe_order_witness :
    ∃ hf w1 h,
      ofono_handsfree_create exWorldABC true 5 0 (some "hfp") 0 = some (some hf, w1) ∧
      w1.hfs hf = some h ∧ h.driver = some 2 ∧
      w1.calls = [DriverCall.probe 2 hf 0 0] := by
  obtain ⟨_, hf, w1, h, h1, h2, h3, h4⟩ :=
    create_probe_order exWorld [RegCall.register 1, RegCall.register 2, RegCall.register 3]
      5 0 "hfp" 0 rfl
  have e : spec_select exWorld.drivers 0 0
      ((registration_log exWorld.drivers
        [RegCall.register 1, RegCall.register 2, RegCall.register 3] []).reverse.filter
        (name_matches exWorld.drivers "hfp")) = some 2 := by decide
  rw [e] at h3
  refine ⟨hf, w1, h, h1, h2, h3, ?_⟩
  rw [h4, h3]
  have e2 : ((registration_log exWorld.drivers
        [RegCall.register 1, RegCall.register 2, RegCall.register 3] []).reverse.filter
        (name_matches exWorld.drivers "hfp")).takeWhile
        (fun d => !probe_succeeds exWorld.drivers 0 0 d) = [] := by decide
  rw [e2]
  rfl

/-- C1, counterexample to the claim as stated: in the state after `register A,
register B, register C`, the first registered descriptor, latest first, whose
probe succeeds is `C`; yet creating an `hfp` atom never probes `C`, whose name
is `other`, and binds `B`. -/
theorem create_probe_order_counterexample :
    exWorldABC.g_drivers = [3, 2, 1] ∧
    spec_select exWorldABC.drivers 0 0 exWorldABC.g_drivers = some 3 ∧
    ∃ w1,
      ofono_handsfree_create exWorldABC true 5 0 (some "hfp") 0 = some (some 100, w1) ∧
      Option.map (fun h => h.driver) (w1.hfs 100) = some (some 2) ∧
      w1.calls = [DriverCall.probe 2 100 0 0] := by
  obtain ⟨w1, hcreate, hlive1, hcalls1, _⟩ := create_spec exWorldABC 5 0 "hfp" 0 (by decide)
  have hlive2 : w1.hfs 100 = some (hf_after_loop exWorldABC.drivers 0 "hfp" 0
      exWorldABC.g_drivers { hf_zero with atom := some (exWorldABC.brk + 1) }) := hlive1
  refine ⟨by decide, by decide, w1, hcreate, ?_, ?_⟩
  · rw [hlive2]
    decide
  · rw [hcalls1]
    decide

/-- C10: with a NULL driver name `ofono_handsfree_create` returns NULL and
leaves the state as it was: no atom, no probe.  With a driver name (and memory)
every probe it calls is on a registered descriptor of that name, so a
descriptor of another name is neither probed nor bound, and the bound driver is
the first descriptor of the list, that is the latest registered, that has the
requested name and whose probe succeeds (none when there is none). -/
theorem create_name_filter (w : World) (modem : ModemPtr) (vendor : Nat) (data : VoidPtr)
    (hprobes : ∀ d ∈ w.g_drivers, (w.drivers d).probe.isSome = true) :
    (∀ alloc_ok, ofono_handsfree_create w alloc_ok modem vendor none data = some (none, w)) ∧
    ∀ name : String, ∃ (hf : HfPtr) (w1 : World) (h : ofono_handsfree) (probed : List DrvPtr),
      ofono_handsfree_create w true modem vendor (some name) data = some (some hf, w1) ∧
      w1.hfs hf = some h ∧
      w1.calls = w.calls ++ probed.map (fun d => DriverCall.probe d hf vendor data) ∧
      (∀ d ∈ probed, d ∈ w.g_drivers ∧ (w.drivers d).name = some name) ∧
      (∀ d, h.driver = some d → d ∈ w.g_drivers ∧ (w.drivers d).name = some name) ∧
      h.driver = w.g_drivers.find?
        (fun d => name_matches w.drivers name d && probe_succeeds w.drivers vendor data d) := by
  refine ⟨fun _ => rfl, ?_⟩
  intro name
  have hsel : spec_select w.drivers vendor data
      (w.g_drivers.filter (name_matches w.drivers name)) = w.g_drivers.find?
        (fun d => name_matches w.drivers name d && probe_succeeds w.drivers vendor data d) := by
    simp only [spec_select, find_filter]
  have hdrv : (hf_after_loop w.drivers vendor name data w.g_drivers
      { hf_zero with atom := some (w.brk + 1) }).driver = w.g_drivers.find?
        (fun d => name_matches w.drivers name d && probe_succeeds w.drivers vendor data d) := by
    rw [← hsel]
    simp only [hf_after_loop, hf_zero]
    cases spec_select w.drivers vendor data
      (w.g_drivers.filter (name_matches w.drivers name)) <;> rfl
  obtain ⟨w1, hcreate, hlive1, hcalls1, _⟩ := create_spec w modem vendor name data hprobes
  refine ⟨w.brk, w1, _, tried (probe_succeeds w.drivers vendor data)
      (w.g_drivers.filter (name_matches w.drivers name)), hcreate, hlive1, ?_, ?_, ?_, hdrv⟩
  · rw [hcalls1]
    rfl
  · intro d hd
    rw [tried_eq] at hd
    have hmem : d ∈ w.g_drivers.filter (name_matches w.drivers name) := by
      rcases List.mem_append.mp hd with h1 | h1
      · exact (List.takeWhile_sublist _).subset h1
      · rw [Option.mem_toList] at h1
        exact List.mem_of_find?_eq_some h1
    rw [List.mem_filter] at hmem
    exact ⟨hmem.1, by simpa [name_matches] using hmem.2⟩
  · intro d hd
    rw [hdrv] at hd
    have h1 := List.mem_of_find?_eq_some hd
    have h2 := List.find?_some hd
    simp only [Bool.and_eq_true, name_matches, decide_eq_true_eq] at h2
    exact ⟨h1, h2.1⟩

/-- C10, witness: in the state after `register A, register B, register C`,
creating an atom for the driver name `other` binds `C`. -/
theorem create_name_filter_witness :
    ∃ hf w1 h,
      ofono_handsfree_create exWorldABC true 5 0 (some "other") 0 = some (some hf, w1) ∧
      w1.hfs hf = some h ∧ h.driver = some 3 := by
  obtain ⟨hf, w1, h, _, h1, h2, _, _, _, h6⟩ :=
    (create_name_filter exWorldABC 5 0 0 (by decide)).2 "other"
  exact ⟨hf, w1, h, h1, h2, by rw [h6]; decide⟩

/-- C6 (as the code has it): when every registered descriptor of the requested
name fails its probe (the empty registry included), `ofono_handsfree_create`,
given a driver name and memory, still returns an object.  Its driver is NULL;
its `atom` member points to a new atom of type handsfree on the given modem,
with `handsfree_remove` as destructor and the object as data, and that atom is
linked at the head of the modem's atoms; the registry is as before.  Its cached
`inband_ringing` is what the failed probes left there, and it is `FALSE` when
none of them called `ofono_handsfree_set_inband_ringing`. -/
theorem create_no_match (w : World) (modem : ModemPtr) (vendor : Nat) (name : String)
    (data : VoidPtr)
    (hprobes : ∀ d ∈ w.g_drivers, (w.drivers d).probe.isSome = true)
    (hfail : ∀ d ∈ w.g_drivers, (w.drivers d).name = some name →
      probe_succeeds w.drivers vendor data d = false) :
    ∃ (hf : HfPtr) (w1 : World) (h : ofono_handsfree) (atom : AtomPtr) (atm : ofono_atom),
      ofono_handsfree_create w true modem vendor (some name) data = some (some hf, w1) ∧
      w1.hfs hf = some h ∧
      h.driver = none ∧ h.atom = some atom ∧
      w1.atoms atom = some atm ∧
      atm.type = ofono_atom_type.OFONO_ATOM_TYPE_HANDSFREE ∧ atm.modem = modem ∧
      atm.destruct = some Callback.handsfree_remove ∧ atm.data = some hf ∧
      w1.modem_atoms modem = atom :: w.modem_atoms modem ∧
      w1.g_drivers = w.g_drivers ∧
      h.inband_ringing =
        (w.g_drivers.filter (name_matches w.drivers name)).foldl
          (cache_after w.drivers vendor data) 0 ∧
      (quiet_probes w.drivers vendor name data w.g_drivers → h.inband_ringing = 0) := by
  have hnone : spec_select w.drivers vendor data
      (w.g_drivers.filter (name_matches w.drivers name)) = none := by
    simp only [spec_select, List.find?_eq_none, List.mem_filter]
    intro d hd
    have := hfail d hd.1 (by simpa [name_matches] using hd.2)
    simp [this]
  have htried : tried (probe_succeeds w.drivers vendor data)
      (w.g_drivers.filter (name_matches w.drivers name)) =
      w.g_drivers.filter (name_matches w.drivers name) := by
    rw [tried_eq]
    have hfind : List.find? (probe_succeeds w.drivers vendor data)
        (w.g_drivers.filter (name_matches w.drivers name)) = none := hnone
    rw [hfind, Option.toList_none, List.append_nil, List.takeWhile_eq_self_iff]
    intro d hd
    rw [List.mem_filter] at hd
    have := hfail d hd.1 (by simpa [name_matches] using hd.2)
    simp [this]
  obtain ⟨w1, hcreate, hlive1, _, _, hreg, _, hatom, hlink⟩ :=
    create_spec w modem vendor name data hprobes
  cases hatm : w1.atoms (w.brk + 1) with
  | none => simp [hatm] at hatom
  | some atm =>
    simp only [hatm, Option.map_some', Option.some.injEq, atom_core, Prod.mk.injEq] at hatom
    refine ⟨w.brk, w1, _, w.brk + 1, atm, hcreate, hlive1, ?_, ?_, hatm, hatom.1, hatom.2.1,
      hatom.2.2.1, hatom.2.2.2, hlink, hreg, ?_, ?_⟩
    · simp only [hf_after_loop, hnone, hf_zero]
    · simp only [hf_after_loop, hf_zero]
    · simp only [hf_after_loop, hf_zero, htried]
    · intro hq
      rw [hf_after_loop_quiet w.drivers vendor name data w.g_drivers _ hq]
      rfl

/-- C6, witness: with only `A` registered, whose probe fails and makes no call
on the object, creating an `hfp` atom yields an unbound object that caches
`FALSE`. -/
theorem create_no_match_witness :
    ∃ hf w1 h,
      ofono_handsfree_create (reg_run exWorld [RegCall.register 1]) true 5 0 (some "hfp") 0 =
        some (some hf, w1) ∧
      w1.hfs hf = some h ∧ h.driver = none ∧ h.inband_ringing = 0 := by
  obtain ⟨hf, w1, h, _, _, h1, h2, h3, _, _, _, _, _, _, _, _, _, h4⟩ :=
    create_no_match (reg_run exWorld [RegCall.register 1]) 5 0 "hfp" 0 (by decide) (by decide)
  refine ⟨hf, w1, h, h1, h2, h3, h4 ?_⟩
  intro d hd _
  have hd1 : d = 1 := by
    have : (reg_run exWorld [RegCall.register 1]).g_drivers = [1] := by decide
    rw [this] at hd
    simpa using hd
  subst hd1
  decide

/-- C6, counterexample to the claim as stated: with only `E` registered, the
probe of every registered descriptor fails; `E`'s probe has called
`ofono_handsfree_set_inband_ringing(hf, 1)` before failing, so the object
returned, which is unbound, caches 1 and not `FALSE`. -/
theorem create_no_match_counterexample :
    exWorldE.g_drivers = [4] ∧
    probe_succeeds exWorldE.drivers 0 0 4 = false ∧
    ∃ w1,
      ofono_handsfree_create exWorldE true 5 0 (some "ring") 0 = some (some 100, w1) ∧
      w1.hfs 100 =
        some { inband_ringing := 1, driver := none, driver_data := 0, atom := some 101 } := by
  obtain ⟨w1, hcreate, hlive1, _⟩ := create_spec exWorldE 5 0 "ring" 0 (by decide)
  have hlive2 : w1.hfs 100 = some (hf_after_loop exWorldE.drivers 0 "ring" 0
      exWorldE.g_drivers { hf_zero with atom := some (exWorldE.brk + 1) }) := hlive1
  refine ⟨by decide, by decide, w1, hcreate, ?_⟩
  rw [hlive2]
  decide

end OFono
